import Mathlib

/-!
Verification of the srctools BSP container engine (src/srctools/bsp.py)
against its natural-language specification.

Modelling conventions (shallow embedding):
* Raw bytes are `List Nat` (each element a byte value 0–255 by construction).
* `struct.pack`/`struct.unpack` fields are modelled byte-for-byte in little
  endian; signed fields decode through two's complement.
* IEEE-754 float32 fields are carried as their 4-byte bit patterns
  (a `Nat` below `2^32`); the codecs only move these patterns, never
  compute with them, so this is exact.
* Python exceptions are modelled by `Option`: `none` is "the operation
  raised", `some` is its value on success.
* `srctools.Vec` / `srctools.Angle` are external collaborators; their
  3-component payloads are modelled as opaque triples of field patterns.
-/

namespace Srctools

/-- Little-endian byte encoding of `v` into `w` bytes (the byte image of
`struct.pack` for an unsigned little-endian field; callers guard the range). -/
def natToLe : (w : Nat) → (v : Nat) → List Nat
  | 0, _ => []
  | w + 1, v => v % 256 :: natToLe w (v / 256)

/-- Little-endian decoding of a byte list to an unsigned integer. -/
def leToNat : List Nat → Nat
  | [] => 0
  | b :: bs => b + 256 * leToNat bs

/-- Reinterpret a `w`-byte unsigned value as two's-complement signed. -/
def toSigned (w : Nat) (n : Nat) : Int :=
  if n < 2 ^ (8 * w - 1) then (n : Int) else (n : Int) - 2 ^ (8 * w)

/-- Byte image of `struct.pack` for a signed little-endian field;
`none` models `struct.error` on an out-of-range value. -/
def packI (w : Nat) (i : Int) : Option (List Nat) :=
  if -(2 ^ (8 * w - 1)) ≤ i ∧ i < 2 ^ (8 * w - 1) then
    some (natToLe w (i.emod (2 ^ (8 * w))).toNat)
  else none

/-- Byte image of `struct.pack` for an unsigned little-endian field;
`none` models `struct.error` on an out-of-range value. -/
def packU (w : Nat) (v : Nat) : Option (List Nat) :=
  if v < 256 ^ w then some (natToLe w v) else none

/-- Read `n` raw bytes off the front of a stream; `none` models running out
of data (`struct.error` on a short read). -/
def readN (n : Nat) (s : List Nat) : Option (List Nat × List Nat) :=
  if n ≤ s.length then some (s.take n, s.drop n) else none

/-- Read a `w`-byte little-endian unsigned field. -/
def readU (w : Nat) (s : List Nat) : Option (Nat × List Nat) :=
  (readN w s).map fun p => (leToNat p.1, p.2)

/-- Read a `w`-byte little-endian signed field. -/
def readI (w : Nat) (s : List Nat) : Option (Int × List Nat) :=
  (readU w s).map fun p => (toSigned w p.1, p.2)

/-- Read `n` repetitions of a field. -/
def readVec {α : Type} (rd : List Nat → Option (α × List Nat)) :
    Nat → List Nat → Option (List α × List Nat)
  | 0, s => some ([], s)
  | n + 1, s => do
    let (a, s₁) ← rd s
    let (as, s₂) ← readVec rd n s₁
    some (a :: as, s₂)

/-- Python sequence indexing `l[i]`: a negative index counts from the end;
`none` models `IndexError`. -/
def pyGet {α : Type} (l : List α) (i : Int) : Option α :=
  if 0 ≤ i then l[i.toNat]?
  else if i + l.length < 0 then none
  else l[(i + l.length).toNat]?

/-- Normalize one bound of a Python slice `l[a:b]` to a clamped index. -/
def pySliceIdx (len : Nat) (i : Int) : Nat :=
  if i < 0 then (i + len).toNat else min i.toNat len

/-- Python slicing `l[a:b]` (never raises; bounds are clamped). -/
def pySlice {α : Type} (l : List α) (a b : Int) : List α :=
  (l.take (pySliceIdx l.length b)).drop (pySliceIdx l.length a)

/-- Leftmost occurrence of `pat` as a contiguous substring of `data`
(the model of `bytes.find`; `none` is Python's `-1`). -/
def findSubstr (pat : List Nat) : List Nat → Option Nat
  | [] => if pat.isEmpty then some 0 else none
  | d :: rest =>
    if pat.isPrefixOf (d :: rest) then some 0
    else (findSubstr pat rest).map (· + 1)

/- ## Basic lemmas about the byte infrastructure -/

theorem natToLe_length (w v : Nat) : (natToLe w v).length = w := by
  induction w generalizing v with
  | zero => rfl
  | succ w ih => simp [natToLe, ih]

theorem leToNat_natToLe (w v : Nat) : leToNat (natToLe w v) = v % 256 ^ w := by
  induction w generalizing v with
  | zero => simp [natToLe, leToNat, Nat.mod_one]
  | succ w ih =>
    simp only [natToLe, leToNat, ih]
    have h256 : (256 : Nat) ^ (w + 1) = 256 * 256 ^ w := by ring
    rw [h256, Nat.mod_mul]

theorem readN_append (n : Nat) (xs ys : List Nat) (h : xs.length = n) :
    readN n (xs ++ ys) = some (xs, ys) := by
  simp [readN, ← h, List.take_append, List.drop_append]

theorem readN_eq_some {n : Nat} {s b r : List Nat} (h : readN n s = some (b, r)) :
    s = b ++ r ∧ b.length = n := by
  unfold readN at h
  split at h
  · rename_i hle
    obtain ⟨hb, hr⟩ := Prod.mk.injEq .. ▸ Option.some.injEq .. ▸ h
    constructor
    · rw [← hb, ← hr]; exact (List.take_append_drop n s).symm
    · rw [← hb]; exact List.length_take_of_le hle
  · exact absurd h (by simp)

theorem readU_append (w v : Nat) (h : v < 256 ^ w) (rest : List Nat) :
    readU w (natToLe w v ++ rest) = some (v, rest) := by
  simp [readU, readN_append w _ rest (natToLe_length w v), leToNat_natToLe,
    Nat.mod_eq_of_lt h]

theorem readU_eq_some {w : Nat} {s : List Nat} {v : Nat} {r : List Nat}
    (h : readU w s = some (v, r)) : s.length = w + r.length := by
  unfold readU at h
  cases hn : readN w s with
  | none => simp [hn] at h
  | some p =>
    simp only [hn, Option.map_some] at h
    obtain ⟨-, hr⟩ := Prod.mk.injEq .. ▸ Option.some.injEq .. ▸ h
    obtain ⟨hs, hb⟩ := readN_eq_some hn
    subst hr
    simp [hs, hb]

theorem readI_eq_some {w : Nat} {s : List Nat} {v : Int} {r : List Nat}
    (h : readI w s = some (v, r)) : s.length = w + r.length := by
  unfold readI at h
  cases hn : readU w s with
  | none => simp [hn] at h
  | some p =>
    simp only [hn, Option.map_some] at h
    obtain ⟨-, hr⟩ := Prod.mk.injEq .. ▸ Option.some.injEq .. ▸ h
    subst hr
    exact readU_eq_some hn

/- ## Texture-name codec (`BSP._lmp_read_textures` / `BSP._lmp_write_textures`) -/

/-- Scan forward from `off`, probing at most `fuel` positions, for a NUL
byte (the `for str_off in range(off, off + 128)` loop of
`BSP._lmp_read_textures`); `none` models both the 128-byte-cap `ValueError`
and an `IndexError` from probing outside the blob. -/
def scanNul (data : List Nat) : (off : Int) → (fuel : Nat) → Option Int
  | _, 0 => none
  | off, fuel + 1 =>
    match pyGet data off with
    | none => none
    | some 0 => some off
    | some _ => scanNul data (off + 1) fuel

/-- Decode one texture name from the string blob at a declared offset:
scan for the terminator, slice, and ASCII-decode. -/
def readTexName (data : List Nat) (off : Int) : Option (List Nat) := do
  let stop ← scanNul data off 128
  let s := pySlice data off stop
  if s.all (· < 128) then some s else none

/-- Decode every declared offset of the string table. -/
def texturesDecodeOffsets (data : List Nat) (offs : List Int) :
    Option (List (List Nat)) :=
  offs.mapM (readTexName data)

/-- Split the raw TEXDATA_STRING_TABLE lump into unsigned 32-bit words;
`none` models the `struct.error` when its length is not a multiple of 4. -/
def leWords4 : List Nat → Option (List Nat)
  | [] => some []
  | a :: b :: c :: d :: rest => (leWords4 rest).map (leToNat [a, b, c, d] :: ·)
  | _ => none

/-- The decoder `BSP._lmp_read_textures`: unpack the signed offset table,
then read a NUL-terminated ASCII name at each offset. -/
def texturesDecode (texTable texData : List Nat) : Option (List (List Nat)) := do
  let words ← leWords4 texTable
  texturesDecodeOffsets texData (words.map (toSigned 4))

/-- One step of `BSP._lmp_write_textures`: reject names of 128 or more
bytes, reuse an existing occurrence of `name ++ [0]` found as a substring
of the growing blob, else append a fresh copy; the offset is packed as a
signed 32-bit table entry. -/
def texturesEncodeStep (st : List Nat × List Nat) (tex : List Nat) :
    Option (List Nat × List Nat) :=
  if 128 ≤ tex.length then none
  else if tex.all (· < 128) then
    let s := tex ++ [0]
    let (ind, data) :=
      match findSubstr s st.2 with
      | some i => (i, st.2)
      | none => (st.2.length, st.2 ++ s)
    (packI 4 ind).map fun bs => (st.1 ++ bs, data)
  else none

/-- The encoder `BSP._lmp_write_textures`, producing the offset-table lump
and the string-blob lump. -/
def texturesEncode (textures : List (List Nat)) : Option (List Nat × List Nat) :=
  List.foldlM texturesEncodeStep ([], []) textures

/- ## Lemmas about the texture-name codec -/

/-- Wellformedness of one stored table entry: `ind` points, within the
signed-32 range, at a copy of `name` immediately followed by a NUL, and
`name` is NUL-free ASCII of at most 127 bytes. -/
def EntryOk (data : List Nat) (ind : Nat) (name : List Nat) : Prop :=
  ind < 2 ^ 31 ∧ name.length < 128 ∧ (∀ b ∈ name, 0 < b ∧ b < 128) ∧
  (∀ j, j < name.length → data[ind + j]? = name[j]?) ∧
  data[ind + name.length]? = some 0

theorem getElem?_append_of_some {α : Type} {l e : List α} {n : Nat} {x : α}
    (h : l[n]? = some x) : (l ++ e)[n]? = some x := by
  have hn : n < l.length := by
    rcases List.getElem?_eq_some.mp h with ⟨hlt, -⟩
    exact hlt
  rw [List.getElem?_append_left hn]; exact h

theorem EntryOk_append {data ext : List Nat} {ind : Nat} {name : List Nat}
    (h : EntryOk data ind name) : EntryOk (data ++ ext) ind name := by
  obtain ⟨h31, hlen, hbytes, hcopy, hnul⟩ := h
  refine ⟨h31, hlen, hbytes, fun j hj => ?_, getElem?_append_of_some hnul⟩
  have := hcopy j hj
  rw [List.getElem?_eq_getElem hj] at this ⊢
  exact getElem?_append_of_some this

theorem pyGet_natCast {α : Type} (l : List α) (n : Nat) :
    pyGet l (n : Int) = l[n]? := by
  simp [pyGet]

theorem scanNul_found (name : List Nat) :
    ∀ (data : List Nat) (ind fuel : Nat),
    name.length < fuel →
    (∀ j, j < name.length → data[ind + j]? = name[j]?) →
    (∀ b ∈ name, 0 < b) →
    data[ind + name.length]? = some 0 →
    scanNul data (ind : Int) fuel = some ((ind + name.length : Nat) : Int) := by
  induction name with
  | nil =>
    intro data ind fuel hf _ _ hnul
    obtain ⟨f, rfl⟩ : ∃ f, fuel = f + 1 := ⟨fuel - 1, by omega⟩
    unfold scanNul
    rw [pyGet_natCast]
    simp only [List.length_nil, Nat.add_zero] at hnul
    rw [hnul]
    simp
  | cons b rest ih =>
    intro data ind fuel hf hcopy hpos hnul
    obtain ⟨f, rfl⟩ : ∃ f, fuel = f + 1 := ⟨fuel - 1, by omega⟩
    have hb : 0 < b := hpos b (by simp)
    obtain ⟨k, rfl⟩ : ∃ k, b = k + 1 := ⟨b - 1, by omega⟩
    have h0 : data[ind]? = some (k + 1) := by
      have := hcopy 0 (by simp)
      simpa using this
    have hlen : ind + ((k + 1) :: rest).length = (ind + 1) + rest.length := by
      simp only [List.length_cons]; omega
    unfold scanNul
    rw [pyGet_natCast, h0]
    show scanNul data ((ind : Int) + 1) f = some ((ind + ((k + 1) :: rest).length : Nat) : Int)
    have harith : (ind : Int) + 1 = ((ind + 1 : Nat) : Int) := by push_cast; ring
    rw [harith, hlen]
    exact ih data (ind + 1) f (by simp only [List.length_cons] at hf; omega)
      (fun j hj => by
        have := hcopy (j + 1) (by simp only [List.length_cons]; omega)
        have hidx : ind + (j + 1) = ind + 1 + j := by omega
        rw [hidx] at this
        simpa using this)
      (fun x hx => hpos x (by simp [hx]))
      (by rw [← hlen]; exact hnul)

theorem slice_eq_name {data name : List Nat} {ind : Nat}
    (hcopy : ∀ j, j < name.length → data[ind + j]? = name[j]?)
    (hnul : data[ind + name.length]? = some 0) :
    pySlice data (ind : Int) ((ind + name.length : Nat) : Int) = name := by
  have hlt : ind + name.length < data.length := (List.getElem?_eq_some.mp hnul).1
  unfold pySlice
  have h1 : pySliceIdx data.length ((ind + name.length : Nat) : Int) =
      ind + name.length := by
    simp only [pySliceIdx]
    split
    · omega
    · simp; omega
  have h2 : pySliceIdx data.length ((ind : Nat) : Int) = ind := by
    simp only [pySliceIdx]
    split
    · omega
    · simp; omega
  rw [h1, h2]
  apply List.ext_getElem?
  intro j
  rw [List.getElem?_drop]
  rw [List.getElem?_take]
  by_cases hj : j < name.length
  · rw [if_pos (by omega)]
    exact hcopy j hj
  · rw [if_neg (by omega), (List.getElem?_eq_none (by omega) : name[j]? = none)]

theorem readTexName_entry {data : List Nat} {ind : Nat} {name : List Nat}
    (h : EntryOk data ind name) : readTexName data (ind : Int) = some name := by
  obtain ⟨h31, hlen, hbytes, hcopy, hnul⟩ := h
  have hscan := scanNul_found name data ind 128 hlen hcopy
    (fun b hb => (hbytes b hb).1) hnul
  unfold readTexName
  rw [hscan]
  show (if ((pySlice data ((ind : Nat) : Int) ((ind + name.length : Nat) : Int)).all
        fun x => decide (x < 128)) = true
      then some (pySlice data ((ind : Nat) : Int) ((ind + name.length : Nat) : Int))
      else none) = some name
  rw [slice_eq_name hcopy hnul, if_pos]
  exact List.all_eq_true.mpr fun b hb => decide_eq_true (hbytes b hb).2

theorem findSubstr_spec {pat : List Nat} : ∀ {data : List Nat} {i : Nat},
    findSubstr pat data = some i → ∀ j, j < pat.length → data[i + j]? = pat[j]? := by
  intro data
  induction data with
  | nil =>
    intro i h j hj
    unfold findSubstr at h
    split at h
    · rename_i hp
      rw [List.isEmpty_iff] at hp
      subst hp
      simp at hj
    · simp at h
  | cons d rest ih =>
    intro i h j hj
    unfold findSubstr at h
    split at h
    · rename_i hp
      obtain rfl : (0 : Nat) = i := Option.some.injEq .. ▸ h
      obtain ⟨t, ht⟩ := List.isPrefixOf_iff_prefix.mp hp
      rw [← ht, Nat.zero_add, List.getElem?_append_left hj]
    · obtain ⟨i', hi', hadd⟩ := Option.map_eq_some'.mp h
      subst hadd
      rw [show i' + 1 + j = (i' + j) + 1 by omega, List.getElem?_cons_succ]
      exact ih hi' j hj

theorem packI_natCast (n : Nat) :
    packI 4 (n : Int) = if n < 2 ^ 31 then some (natToLe 4 n) else none := by
  unfold packI
  have hw : (8 * 4 - 1 : Nat) = 31 := by norm_num
  rw [hw]
  by_cases h : n < 2 ^ 31
  · have hc : -((2 : Int) ^ 31) ≤ (n : Int) ∧ (n : Int) < 2 ^ 31 :=
      ⟨le_trans (by norm_num) (Int.natCast_nonneg n), by exact_mod_cast h⟩
    rw [if_pos hc, if_pos h]
    congr 1
    have hmod : ((n : Int)).emod (2 ^ (8 * 4)) = (n : Int) :=
      Int.emod_eq_of_lt (Int.natCast_nonneg n)
        (lt_of_lt_of_le (show (n : Int) < 2 ^ 31 by exact_mod_cast h) (by norm_num))
    rw [hmod, Int.toNat_natCast]
  · rw [if_neg (fun hc => h (by exact_mod_cast hc.2)), if_neg h]

theorem encodeStep_entry {table data t : List Nat} {res : List Nat × List Nat}
    (hnul : ∀ b ∈ t, b ≠ 0)
    (hstep : texturesEncodeStep (table, data) t = some res) :
    ∃ (ind : Nat) (ext : List Nat), res.2 = data ++ ext ∧
      res.1 = table ++ natToLe 4 ind ∧ EntryOk res.2 ind t := by
  unfold texturesEncodeStep at hstep
  split at hstep
  · exact absurd hstep (by simp)
  · rename_i hlen
    split at hstep
    case isFalse => exact absurd hstep (by simp)
    rename_i hascii
    have hbytes : ∀ b ∈ t, 0 < b ∧ b < 128 := fun b hb =>
      ⟨Nat.pos_of_ne_zero (hnul b hb), by
        have := List.all_eq_true.mp hascii b hb
        exact of_decide_eq_true this⟩
    cases hfind : findSubstr (t ++ [0]) data with
    | some i =>
      simp only [hfind] at hstep
      rw [packI_natCast] at hstep
      split at hstep
      case isFalse => exact absurd hstep (by simp)
      rename_i h31
      simp only [Option.map_some'] at hstep
      obtain rfl := (Option.some.injEq .. ▸ hstep).symm
      have hsub := findSubstr_spec hfind
      refine ⟨i, [], by simp, rfl, h31, by omega, hbytes, fun j hj => ?_, ?_⟩
      · have := hsub j (by simp; omega)
        rwa [List.getElem?_append_left hj] at this
      · have := hsub t.length (by simp)
        rwa [List.getElem?_concat_length] at this
    | none =>
      simp only [hfind] at hstep
      rw [packI_natCast] at hstep
      split at hstep
      case isFalse => exact absurd hstep (by simp)
      rename_i h31
      simp only [Option.map_some'] at hstep
      obtain rfl := (Option.some.injEq .. ▸ hstep).symm
      refine ⟨data.length, t ++ [0], rfl, rfl, h31, by omega, hbytes,
        fun j hj => ?_, ?_⟩
      · rw [List.getElem?_append_right (by omega),
          show data.length + j - data.length = j by omega,
          List.getElem?_append_left hj]
      · rw [List.getElem?_append_right (by omega),
          show data.length + t.length - data.length = t.length by omega,
          List.getElem?_concat_length]

theorem texFold_spec : ∀ (texs : List (List Nat)) (table data : List Nat)
    (res : List Nat × List Nat),
    (∀ t ∈ texs, ∀ b ∈ t, b ≠ 0) →
    List.foldlM texturesEncodeStep (table, data) texs = some res →
    ∃ (ext : List Nat) (offs : List Nat),
      res.2 = data ++ ext ∧
      res.1 = table ++ offs.flatMap (natToLe 4) ∧
      List.Forall₂ (fun ind t => EntryOk res.2 ind t) offs texs := by
  intro texs
  induction texs with
  | nil =>
    intro table data res _ h
    simp only [List.foldlM_nil, Option.pure_def, Option.some.injEq] at h
    subst h
    exact ⟨[], [], by simp, by simp, List.Forall₂.nil⟩
  | cons t rest ih =>
    intro table data res hnul h
    rw [List.foldlM_cons] at h
    obtain ⟨st', hstep, hrest⟩ := Option.bind_eq_some.mp h
    obtain ⟨ind, ext₁, hd₁, ht₁, hE₁⟩ :=
      encodeStep_entry (hnul t (by simp)) hstep
    obtain ⟨ext₂, offs, hd₂, ht₂, hF⟩ := ih st'.1 st'.2 res
      (fun x hx => hnul x (by simp [hx])) (by rwa [Prod.mk.eta])
    refine ⟨ext₁ ++ ext₂, ind :: offs, ?_, ?_, ?_⟩
    · rw [hd₂, hd₁, List.append_assoc]
    · rw [ht₂, ht₁, List.flatMap_cons, List.append_assoc]
    · exact List.Forall₂.cons (hd₂ ▸ EntryOk_append hE₁) hF

theorem leWords4_append (v : Nat) (rest : List Nat) :
    leWords4 (natToLe 4 v ++ rest) = (leWords4 rest).map ((v % 2 ^ 32) :: ·) := by
  have hshape : natToLe 4 v =
      [v % 256, v / 256 % 256, v / 256 / 256 % 256, v / 256 / 256 / 256 % 256] := by
    simp [natToLe]
  have hval : leToNat [v % 256, v / 256 % 256, v / 256 / 256 % 256,
      v / 256 / 256 / 256 % 256] = v % 2 ^ 32 := by
    rw [← hshape, leToNat_natToLe]
    norm_num
  rw [hshape]
  show leWords4 (v % 256 :: v / 256 % 256 :: v / 256 / 256 % 256 ::
    v / 256 / 256 / 256 % 256 :: rest) = _
  rw [leWords4, hval]

theorem leWords4_flatMap : ∀ (offs : List Nat), (∀ v ∈ offs, v < 2 ^ 32) →
    leWords4 (offs.flatMap (natToLe 4)) = some offs := by
  intro offs
  induction offs with
  | nil => intro _; rfl
  | cons v rest ih =>
    intro hb
    rw [List.flatMap_cons, leWords4_append, ih (fun x hx => hb x (by simp [hx])),
      Option.map_some', Nat.mod_eq_of_lt (hb v (by simp))]

theorem toSigned_natCast (w : Nat) (n : Nat) (h : n < 2 ^ (8 * w - 1)) :
    toSigned w n = (n : Int) := by
  unfold toSigned
  rw [if_pos h]

theorem decodeOffsets_of_entries {data : List Nat} :
    ∀ {offs : List Nat} {texs : List (List Nat)},
    List.Forall₂ (fun ind t => EntryOk data ind t) offs texs →
    texturesDecodeOffsets data (offs.map (Nat.cast : Nat → Int)) = some texs := by
  intro offs texs h
  induction h with
  | nil => rfl
  | cons hE _ ihF =>
    unfold texturesDecodeOffsets at ihF ⊢
    rw [List.map_cons, List.mapM_cons, readTexName_entry hE]
    simp only [Option.bind_eq_bind, Option.some_bind]
    rw [ihF]
    rfl

theorem texFold_fail : ∀ (texs : List (List Nat)) (st : List Nat × List Nat)
    (t : List Nat), t ∈ texs → 128 ≤ t.length →
    List.foldlM texturesEncodeStep st texs = none := by
  intro texs
  induction texs with
  | nil => intro st t ht _; simp at ht
  | cons u rest ih =>
    intro st t ht hlen
    rw [List.foldlM_cons]
    rcases List.mem_cons.mp ht with rfl | hmem
    · have hu : texturesEncodeStep st t = none := by
        unfold texturesEncodeStep
        rw [if_pos hlen]
      rw [hu]; rfl
    · cases hu : texturesEncodeStep st u with
      | none => rfl
      | some st' =>
        exact ih st' t hmem hlen

theorem decodeOffsets_fail : ∀ (offs : List Int) (data : List Nat) (off : Int),
    off ∈ offs → scanNul data off 128 = none →
    texturesDecodeOffsets data offs = none := by
  intro offs
  induction offs with
  | nil => intro data off hmem _; simp at hmem
  | cons o rest ih =>
    intro data off hmem hscan
    unfold texturesDecodeOffsets at ih ⊢
    rw [List.mapM_cons]
    rcases List.mem_cons.mp hmem with rfl | hmem'
    · have h0 : readTexName data off = none := by
        unfold readTexName
        rw [hscan]
        rfl
      rw [h0]; rfl
    · cases h0 : readTexName data o with
      | none => rfl
      | some name =>
        simp only [Option.bind_eq_bind, Option.some_bind]
        rw [ih data off hmem' hscan]
        rfl

/-- C5: texture-name decode errors whenever the NUL scan starting at a
declared table offset finds no terminator within its 128-byte window
(covering both the cap `ValueError` and the out-of-blob `IndexError`), and
texture-name encode errors whenever any name has 128 or more bytes. -/
theorem textures_length_errors :
    (∀ (offs : List Int) (data : List Nat) (off : Int), off ∈ offs →
      scanNul data off 128 = none → texturesDecodeOffsets data offs = none) ∧
    (∀ (texs : List (List Nat)) (t : List Nat), t ∈ texs → 128 ≤ t.length →
      texturesEncode texs = none) :=
  ⟨decodeOffsets_fail, fun texs t ht hlen => texFold_fail texs ([], []) t ht hlen⟩

set_option maxRecDepth 8000 in
/-- Witness for C5: a texture name of exactly 128 bytes fails decode (no
NUL within the 128-byte window even though one sits right after it) and
fails encode. -/
theorem textures_length_errors_witness :
    texturesDecodeOffsets (List.replicate 128 97 ++ [0]) [(0 : Int)] = none ∧
    texturesEncode [List.replicate 128 97] = none :=
  ⟨textures_length_errors.1 [(0 : Int)] (List.replicate 128 97 ++ [0]) 0
      (by simp) (by decide),
    textures_length_errors.2 [List.replicate 128 97] (List.replicate 128 97)
      (by simp) (by simp)⟩

/-- C10 counterexample: the name `"a\x00b"` is ASCII and shorter than 128
bytes, yet the decode of its encode returns `"a"` — the interior NUL
terminates the scan early — so the round trip as claimed fails. -/
theorem textures_roundtrip_cex :
    texturesEncode [[97, 0, 98]] = some ([0, 0, 0, 0], [97, 0, 98, 0]) ∧
    texturesDecode [0, 0, 0, 0] [97, 0, 98, 0] = some [[97]] ∧
    [[97]] ≠ [[97, 0, 98]] := by decide

/-- C10 (amended): for every list of NUL-free ASCII texture names each
shorter than 128 bytes, decoding the string blob and offset table produced
by texture-name encode returns exactly the original list in order, even
though encode deduplicates by substring search so a name may share the
tail of an earlier stored entry. -/
theorem textures_roundtrip (texs : List (List Nat)) (tb db : List Nat)
    (hnul : ∀ t ∈ texs, ∀ b ∈ t, b ≠ 0)
    (henc : texturesEncode texs = some (tb, db)) :
    texturesDecode tb db = some texs := by
  obtain ⟨ext, offs, hdb, htb, hF⟩ :=
    texFold_spec texs [] [] (tb, db) hnul henc
  have hF' : List.Forall₂ (fun ind t => EntryOk db ind t) offs texs := hF
  have h31 : ∀ v ∈ offs, v < 2 ^ 31 := by
    clear htb hdb henc hF
    induction hF' with
    | nil => intro v hv; simp at hv
    | cons hE hFr ihr =>
      intro v hv
      rcases List.mem_cons.mp hv with rfl | hv'
      · exact hE.1
      · exact ihr (fun x hx => hnul x (List.mem_cons_of_mem _ hx)) v hv'
  have htb' : tb = offs.flatMap (natToLe 4) := by simpa using htb
  unfold texturesDecode
  rw [htb', leWords4_flatMap offs
    (fun v hv => lt_trans (h31 v hv) (by norm_num))]
  show texturesDecodeOffsets db (offs.map (toSigned 4)) = some texs
  have hmap : offs.map (toSigned 4) = offs.map (Nat.cast : Nat → Int) :=
    List.map_congr_left fun v hv => toSigned_natCast 4 v
      (by rw [show (8 * 4 - 1 : Nat) = 31 from rfl]; exact h31 v hv)
  rw [hmap]
  exact decodeOffsets_of_entries hF'

/-- Witness for C10: three names where the third (`"c"`) is found by the
substring search inside the tail of the earlier stored `"abc"` entry, so
its table offset points inside that entry, and decode still returns the
original list. -/
theorem textures_roundtrip_witness :
    texturesDecode [0, 0, 0, 0, 3, 0, 0, 0, 1, 0, 0, 0]
      [98, 99, 0, 97, 98, 99, 0] = some [[98, 99], [97, 98, 99], [99]] :=
  textures_roundtrip [[98, 99], [97, 98, 99], [99]]
    [0, 0, 0, 0, 3, 0, 0, 0, 1, 0, 0, 0] [98, 99, 0, 97, 98, 99, 0]
    (by decide) (by decide)

/- ## Lazy typed views (`ParsedLump.__get__` / `ParsedLump.__set__`) -/

/-- The state one `ParsedLump` descriptor sees on its owning `BSP`
instance: the raw data of every lump slot (`BSP.lumps[...].data`, slots
indexed by their `BSP_LUMPS` integer value) and this view's cache entry in
`BSP._parsed_lumps`. -/
structure LumpView (α : Type) where
  raws : Nat → List Nat
  cache : Option α

/-- `ParsedLump.__get__`: return the cached object when present; otherwise
decode via the lump codec `read` (a `BSP._lmp_read_*` method, which may
consult any slot's raw data), cache the result, and zero the raw bytes of
the primary slot and every declared dependent slot (`self.to_clear`). -/
def viewGet {α : Type} (read : (Nat → List Nat) → α) (toClear : List Nat)
    (s : LumpView α) : α × LumpView α :=
  match s.cache with
  | some v => (v, s)
  | none =>
    let v := read s.raws
    (v, ⟨fun l => if l ∈ toClear then [] else s.raws l, some v⟩)

/-- `ParsedLump.__set__`: run the optional validator (`check v = false`
models it raising, aborting before any mutation), then zero the raw bytes
of the primary and dependent slots and store the new value. -/
def viewSet {α : Type} (check : α → Bool) (toClear : List Nat) (v : α)
    (s : LumpView α) : Option (LumpView α) :=
  if check v then
    some ⟨fun l => if l ∈ toClear then [] else s.raws l, some v⟩
  else none

/-- The raw-versus-decoded invariant for one view: once a decoded object
is cached, the primary and dependent slots hold no raw bytes. -/
def ViewInv {α : Type} (toClear : List Nat) (s : LumpView α) : Prop :=
  s.cache.isSome → ∀ l ∈ toClear, s.raws l = []

/-- C4: the first get decodes from the instance's raw bytes, caches the
result, and empties the raw data of the primary slot and every dependent
slot; a get with a cache hit returns the identical cached object and
changes nothing; a successful assignment likewise empties those slots and
stores the value; and each operation establishes or preserves the
raw-xor-decoded invariant. -/
theorem parsedLump_view_semantics {α : Type} (read : (Nat → List Nat) → α)
    (check : α → Bool) (toClear : List Nat) (s : LumpView α) (v : α) :
    (s.cache = none →
      viewGet read toClear s =
        (read s.raws,
          ⟨fun l => if l ∈ toClear then [] else s.raws l,
            some (read s.raws)⟩)) ∧
    (s.cache = some v → viewGet read toClear s = (v, s)) ∧
    (∀ s', viewSet check toClear v s = some s' →
      check v = true ∧
      s' = ⟨fun l => if l ∈ toClear then [] else s.raws l, some v⟩) ∧
    (s.cache = none → ViewInv toClear (viewGet read toClear s).2) ∧
    (ViewInv toClear s → ViewInv toClear (viewGet read toClear s).2) ∧
    (∀ s', viewSet check toClear v s = some s' → ViewInv toClear s') := by
  refine ⟨?_, ?_, ?_, ?_, ?_, ?_⟩
  · intro h
    unfold viewGet
    rw [h]
  · intro h
    unfold viewGet
    rw [h]
  · intro s' h
    unfold viewSet at h
    split at h
    · exact ⟨by assumption, (Option.some.injEq .. ▸ h).symm⟩
    · exact absurd h (by simp)
  · intro h
    unfold viewGet
    rw [h]
    intro _ l hl
    simp [hl]
  · intro hinv
    cases hc : s.cache with
    | none =>
      unfold viewGet
      rw [hc]
      intro _ l hl
      simp [hl]
    | some w =>
      unfold viewGet
      rw [hc]
      exact hinv
  · intro s' h
    unfold viewSet at h
    split at h
    · obtain rfl := (Option.some.injEq .. ▸ h).symm
      intro _ l hl
      simp [hl]
    · exact absurd h (by simp)

/-- Witness for C4: a concrete two-slot view where slot 0 holds the raw
bytes; the first get decodes them, caches, and clears both declared slots. -/
theorem parsedLump_view_semantics_witness :
    viewGet (fun raws => raws 0) [0, 1]
        (⟨fun _ => [7], none⟩ : LumpView (List Nat)) =
      ([7], ⟨fun l => if l ∈ [0, 1] then [] else [7], some [7]⟩) ∧
    viewGet (fun raws => raws 0) [0, 1]
        (⟨fun l => if l ∈ [0, 1] then [] else [7], some [7]⟩ :
          LumpView (List Nat)) =
      ([7], ⟨fun l => if l ∈ [0, 1] then [] else [7], some [7]⟩) :=
  ⟨(parsedLump_view_semantics (fun raws => raws 0) (fun _ => true) [0, 1]
      ⟨fun _ => [7], none⟩ [7]).1 rfl,
    (parsedLump_view_semantics (fun raws => raws 0) (fun _ => true) [0, 1]
      ⟨fun l => if l ∈ [0, 1] then [] else [7], some [7]⟩ [7]).2.1 rfl⟩

/- ## Pakfile validator (`BSP._lmp_check_pakfile`) -/

/-- The slot index of `BSP_LUMPS.PAKFILE`. -/
def PAKFILE : Nat := 40

/-- A `zipfile.ZipFile` as the pakfile codec sees it: whether the backing
file object `fp` is an in-memory `io.BytesIO`, plus the buffer content. -/
structure PyZipFile where
  fpIsBuffer : Bool
  buf : List Nat

/-- `BSP._lmp_check_pakfile`: accept only a zipfile whose backing file
object is a `BytesIO` buffer (`false` models the raised `ValueError`). -/
def checkPakfile (z : PyZipFile) : Bool := z.fpIsBuffer

/-- Assignment to `BSP.pakfile`, which goes through `ParsedLump.__set__`
with the pakfile validator and the PAKFILE slot to clear. -/
def pakfileSet (z : PyZipFile) (s : LumpView PyZipFile) :
    Option (LumpView PyZipFile) :=
  viewSet checkPakfile [PAKFILE] z s

/-- C9: assigning a zipfile not backed by an in-memory buffer raises, and
because the validator runs before any mutation the assignment produces no
new state at all — the cached pakfile and the slot's raw bytes are left as
they were; a buffer-backed zipfile is stored with the slot cleared. -/
theorem pakfile_set_validator (z : PyZipFile) (s : LumpView PyZipFile) :
    (z.fpIsBuffer = false → pakfileSet z s = none) ∧
    (z.fpIsBuffer = true →
      pakfileSet z s =
        some ⟨fun l => if l ∈ [PAKFILE] then [] else s.raws l, some z⟩) := by
  unfold pakfileSet viewSet checkPakfile
  constructor <;> intro h <;> simp [h]

/-- Witness for C9: a disk-backed zipfile is rejected with the state
untouched; a buffer-backed one is stored. -/
theorem pakfile_set_validator_witness :
    pakfileSet ⟨false, []⟩ (⟨fun _ => [1], none⟩ : LumpView PyZipFile) =
      none ∧
    pakfileSet ⟨true, []⟩ (⟨fun _ => [1], none⟩ : LumpView PyZipFile) =
      some ⟨fun l => if l ∈ [PAKFILE] then [] else [1], some ⟨true, []⟩⟩ :=
  ⟨(pakfile_set_validator ⟨false, []⟩ ⟨fun _ => [1], none⟩).1 rfl,
    (pakfile_set_validator ⟨true, []⟩ ⟨fun _ => [1], none⟩).2 rfl⟩

/- ## Entity-lump keyvalue classification (`BSP._lmp_read_ents`,
`BSP.write_ent_data`) -/

/-- How one `"key" "value"` line inside an entity is consumed. -/
inductive LineKind where
  | conn : LineKind
  | attr : LineKind
deriving DecidableEq

/-- Modelled from the spec: the numeric check of the connection parser
("the last two successfully parse as numbers"): an optional leading minus
sign followed by one or more ASCII digits. -/
def isNumeric (s : List Nat) : Bool :=
  let digits := match s with
    | 45 :: rest => rest
    | _ => s
  !digits.isEmpty && digits.all fun c => 48 ≤ c && c ≤ 57

/-- Modelled from the spec: `srctools.vmf.Output.parse` is not among the
supplied sources. Following the specification and the source comment
("Assume it's an output if it has exactly 4 commas, and the last two
successfully parse as numbers"), a value parses as a connection when
splitting on the separator byte (27) when present — else on commas —
yields five fields whose last two are numeric. -/
def outputParseOk (v : List Nat) : Bool :=
  let parts := if 27 ∈ v then v.splitOn 27 else v.splitOn 44
  match parts with
  | [_, _, _, d, t] => isNumeric d && isNumeric t
  | _ => false

/-- One `"key" "value"` line inside an entity (`BSP._lmp_read_ents`,
the classification after the line split; the trailing quote byte of the
raw value is neither byte 27 nor a comma, so it is omitted here): a value
containing byte 27 is unconditionally parsed as a connection (a parse
failure there propagates and aborts the decode), and the separator-byte
style is recorded if none is known; else a value with exactly 4 comma
bytes is tried as a connection, falling back to a plain attribute on parse
failure, and either way the comma style is recorded if none is known; any
other value is a plain attribute. `parseOk` abstracts `Output.parse`
succeeding; `sep` is `BSP.out_comma_sep`. -/
def entLineStep (parseOk : List Nat → Bool) (v : List Nat)
    (sep : Option Bool) : Option (LineKind × Option Bool) :=
  if 27 ∈ v then
    if parseOk v then
      some (.conn, if sep = none then some false else sep)
    else none
  else if v.count 44 = 4 then
    some (if parseOk v then .conn else .attr,
      if sep = none then some true else sep)
  else
    some (.attr, sep)

/-- Fold `entLineStep` over the values of every keyvalue line of the lump
in order, returning each line's classification and the final remembered
separator style (`BSP.out_comma_sep`). -/
def entValuesFold (parseOk : List Nat → Bool) :
    List (List Nat) → Option Bool → Option (List LineKind × Option Bool)
  | [], sep => some ([], sep)
  | v :: rest, sep => do
    let (k, sep₁) ← entLineStep parseOk v sep
    let (ks, sep₂) ← entValuesFold parseOk rest sep₁
    some (k :: ks, sep₂)

/-- The classification rule exactly as the specification words it: a value
containing the separator byte 0x1D (29) is always a connection; else a
value with exactly 4 commas is a connection when it parses and an
attribute otherwise; anything else is an attribute. -/
def specClassify (parseOk : List Nat → Bool) (v : List Nat) : LineKind :=
  if 29 ∈ v then .conn
  else if v.count 44 = 4 then (if parseOk v then .conn else .attr)
  else .attr

/-- C2 counterexample: the value `"!self\x1DKill\x1D\x1D0\x1D-1"` contains
the separator byte 0x1D (29) and no commas, so the claim classifies it as
a connection record, but the code tests byte 27 (0x1B) and stores it as a
plain attribute. -/
theorem ent_classify_cex :
    entLineStep outputParseOk
        [33, 115, 101, 108, 102, 29, 75, 105, 108, 108, 29, 29, 48, 29, 45, 49]
        none =
      some (LineKind.attr, none) ∧
    specClassify outputParseOk
        [33, 115, 101, 108, 102, 29, 75, 105, 108, 108, 29, 29, 48, 29, 45, 49] =
      LineKind.conn := by decide

/-- C2 (amended): classification branches on the separator byte 0x1B (27),
not 0x1D: a line's value is added as a connection exactly when it contains
byte 27 or has exactly 4 commas and parses; decode aborts exactly when a
byte-27 value fails to parse; every other value is stored as a plain
attribute. -/
theorem ent_classify (parseOk : List Nat → Bool) (v : List Nat)
    (sep : Option Bool) :
    (∀ r s', entLineStep parseOk v sep = some (r, s') →
      (r = LineKind.conn ↔
        27 ∈ v ∨ (v.count 44 = 4 ∧ parseOk v = true))) ∧
    (entLineStep parseOk v sep = none ↔ 27 ∈ v ∧ parseOk v = false) := by
  unfold entLineStep
  by_cases h27 : 27 ∈ v
  · by_cases hp : parseOk v
    · rw [if_pos h27, if_pos hp]
      refine ⟨fun r s' h => ?_, by simp [h27, hp]⟩
      obtain ⟨rfl, -⟩ := Prod.mk.injEq .. ▸ Option.some.injEq .. ▸ h.symm
      simp [h27]
    · rw [if_pos h27, if_neg hp]
      exact ⟨fun r s' h => absurd h (by simp), by simpa [h27] using hp⟩
  · rw [if_neg h27]
    by_cases hc : v.count 44 = 4
    · rw [if_pos hc]
      refine ⟨fun r s' h => ?_, by simp [h27]⟩
      obtain ⟨rfl, -⟩ := Prod.mk.injEq .. ▸ Option.some.injEq .. ▸ h.symm
      by_cases hp : parseOk v
      · simp [hp, hc]
      · simp [hp, h27, hc]
    · rw [if_neg hc]
      refine ⟨fun r s' h => ?_, by simp [h27]⟩
      obtain ⟨rfl, -⟩ := Prod.mk.injEq .. ▸ Option.some.injEq .. ▸ h.symm
      simp [h27, hc]

/-- Witness for C2: a byte-27-separated connection value is classified as
a connection. -/
theorem ent_classify_witness :
    LineKind.conn = LineKind.conn ↔
      27 ∈ [33, 115, 101, 108, 102, 27, 75, 105, 108, 108, 27, 27, 48, 27, 45, 49] ∨
      ([33, 115, 101, 108, 102, 27, 75, 105, 108, 108, 27, 27, 48, 27, 45, 49].count 44 = 4 ∧
        outputParseOk [33, 115, 101, 108, 102, 27, 75, 105, 108, 108, 27, 27, 48, 27, 45, 49] = true) :=
  (ent_classify outputParseOk
    [33, 115, 101, 108, 102, 27, 75, 105, 108, 108, 27, 27, 48, 27, 45, 49]
    none).1 LineKind.conn (some false) (by decide)

/-- The style the code remembers: that of the first value that enters a
connection branch — separator byte 27 present, or exactly 4 commas even
when the connection parse then fails. -/
def firstCandidateStyle : List (List Nat) → Option Bool
  | [] => none
  | v :: rest =>
    if 27 ∈ v then some false
    else if v.count 44 = 4 then some true
    else firstCandidateStyle rest

/-- The style the specification says is remembered: that of the first
value actually added as a connection record. -/
def specFirstConnStyle (parseOk : List Nat → Bool) :
    List (List Nat) → Option Bool
  | [] => none
  | v :: rest =>
    if 27 ∈ v then some false
    else if v.count 44 = 4 && parseOk v then some true
    else specFirstConnStyle parseOk rest

/-- The separator-style assignment loop of `BSP.write_ent_data`: when a
style is supplied (`BSP._lmp_write_ents` passes the remembered
`out_comma_sep`), it overwrites every output's own `comma_sep` before the
output is formatted; when it is `None`, each output keeps its own. -/
def writeApplySep (useCommaSep : Option Bool) (outs : List Bool) :
    List Bool :=
  match useCommaSep with
  | some b => outs.map fun _ => b
  | none => outs

theorem entLineStep_some_sep {parseOk : List Nat → Bool} {v : List Nat}
    {b : Bool} {k : LineKind} {s : Option Bool}
    (h : entLineStep parseOk v (some b) = some (k, s)) : s = some b := by
  unfold entLineStep at h
  split at h
  · split at h
    · obtain ⟨-, hs⟩ := Prod.mk.injEq .. ▸ Option.some.injEq .. ▸ h
      simp at hs
      exact hs.symm
    · exact absurd h (by simp)
  · split at h
    · obtain ⟨-, hs⟩ := Prod.mk.injEq .. ▸ Option.some.injEq .. ▸ h
      simp at hs
      exact hs.symm
    · obtain ⟨-, hs⟩ := Prod.mk.injEq .. ▸ Option.some.injEq .. ▸ h
      exact hs.symm

theorem entValuesFold_some_sep {parseOk : List Nat → Bool} :
    ∀ {values : List (List Nat)} {b : Bool} {ks : List LineKind}
    {s : Option Bool},
    entValuesFold parseOk values (some b) = some (ks, s) → s = some b := by
  intro values
  induction values with
  | nil =>
    intro b ks s h
    unfold entValuesFold at h
    obtain ⟨-, hs⟩ := Prod.mk.injEq .. ▸ Option.some.injEq .. ▸ h
    exact hs.symm
  | cons v rest ih =>
    intro b ks s h
    unfold entValuesFold at h
    obtain ⟨⟨k, sep₁⟩, hstep, hrest⟩ := Option.bind_eq_some.mp h
    obtain rfl := entLineStep_some_sep hstep
    obtain ⟨⟨ks₂, sep₂⟩, hrest₂, hfin⟩ := Option.bind_eq_some.mp hrest
    obtain ⟨-, hs⟩ := Prod.mk.injEq .. ▸ Option.some.injEq .. ▸ hfin
    exact hs ▸ ih hrest₂

/-- C8 (amended): the remembered separator style after decode is that of
the first value that enters a connection branch — even one whose comma
parse fails and which is therefore stored as a plain attribute — and on
re-encode a supplied style (the remembered one, for `BSP.save`) is applied
to every output globally. -/
theorem ent_sep_memory (parseOk : List Nat → Bool) :
    (∀ (values : List (List Nat)) (ks : List LineKind) (s : Option Bool),
      entValuesFold parseOk values none = some (ks, s) →
      s = firstCandidateStyle values) ∧
    (∀ (b : Bool) (outs : List Bool),
      (writeApplySep (some b) outs).all (fun x => x == b) = true) := by
  constructor
  · intro values
    induction values with
    | nil =>
      intro ks s h
      unfold entValuesFold at h
      obtain ⟨-, hs⟩ := Prod.mk.injEq .. ▸ Option.some.injEq .. ▸ h
      exact hs.symm
    | cons v rest ih =>
      intro ks s h
      unfold entValuesFold at h
      obtain ⟨⟨k, sep₁⟩, hstep, hrest⟩ := Option.bind_eq_some.mp h
      obtain ⟨⟨ks₂, sep₂⟩, hrest₂, hfin⟩ := Option.bind_eq_some.mp hrest
      obtain ⟨-, hs⟩ := Prod.mk.injEq .. ▸ Option.some.injEq .. ▸ hfin
      subst hs
      unfold entLineStep at hstep
      unfold firstCandidateStyle
      by_cases h27 : 27 ∈ v
      · rw [if_pos h27] at hstep
        rw [if_pos h27]
        split at hstep
        · obtain ⟨-, hsep⟩ := Prod.mk.injEq .. ▸ Option.some.injEq .. ▸ hstep
          simp only [if_pos rfl] at hsep
          subst hsep
          exact entValuesFold_some_sep hrest₂
        · exact absurd hstep (by simp)
      · rw [if_neg h27] at hstep
        rw [if_neg h27]
        by_cases hc : v.count 44 = 4
        · rw [if_pos hc] at hstep
          rw [if_pos hc]
          obtain ⟨-, hsep⟩ := Prod.mk.injEq .. ▸ Option.some.injEq .. ▸ hstep
          simp only [if_pos rfl] at hsep
          subst hsep
          exact entValuesFold_some_sep hrest₂
        · rw [if_neg hc] at hstep
          rw [if_neg hc]
          obtain ⟨-, hsep⟩ := Prod.mk.injEq .. ▸ Option.some.injEq .. ▸ hstep
          subst hsep
          exact ih ks₂ sep₂ hrest₂
  · intro b outs
    simp [writeApplySep, List.all_eq_true]

/-- C8 counterexample: the first 4-comma value `"a,b,c,d,e"` fails the
connection parse and is stored as a plain attribute, yet the code already
locks the comma style there; the first successfully-seen connection is the
byte-27-separated second value, whose style the claim says should be
remembered instead. -/
theorem ent_sep_memory_cex :
    entValuesFold outputParseOk
        [[97, 44, 98, 44, 99, 44, 100, 44, 101],
          [33, 115, 101, 108, 102, 27, 75, 105, 108, 108, 27, 27, 48, 27, 45, 49]]
        none =
      some ([LineKind.attr, LineKind.conn], some true) ∧
    specFirstConnStyle outputParseOk
        [[97, 44, 98, 44, 99, 44, 100, 44, 101],
          [33, 115, 101, 108, 102, 27, 75, 105, 108, 108, 27, 27, 48, 27, 45, 49]] =
      some false := by decide

/-- Witness for C8: the remembered style on that same input is the comma
style locked by the first (failed) 4-comma candidate, and a supplied
style is applied to every output on encode. -/
theorem ent_sep_memory_witness :
    (some true : Option Bool) = firstCandidateStyle
      [[97, 44, 98, 44, 99, 44, 100, 44, 101],
        [33, 115, 101, 108, 102, 27, 75, 105, 108, 108, 27, 27, 48, 27, 45, 49]] ∧
    (writeApplySep (some true) [false, true]).all (fun x => x == true) = true :=
  ⟨(ent_sep_memory outputParseOk).1
      [[97, 44, 98, 44, 99, 44, 100, 44, 101],
        [33, 115, 101, 108, 102, 27, 75, 105, 108, 108, 27, 27, 48, 27, 45, 49]]
      [LineKind.attr, LineKind.conn] (some true) (by decide),
    (ent_sep_memory outputParseOk).2 true [false, true]⟩

/- ## Overlay codec (`BSP._lmp_read_overlays`) -/

/-- Total byte image of `struct.pack` for a signed little-endian field
(the two's-complement bytes; callers state the range separately). -/
def intToLe (w : Nat) (i : Int) : List Nat :=
  natToLe w (i.emod (2 ^ (8 * w))).toNat

/-- Encode a triple of float32 bit patterns. -/
def f3le (t : Nat × Nat × Nat) : List Nat :=
  natToLe 4 t.1 ++ natToLe 4 t.2.1 ++ natToLe 4 t.2.2

/-- Read a triple of float32 bit patterns (a `Vec`). -/
def readF3 (s : List Nat) : Option ((Nat × Nat × Nat) × List Nat) := do
  let (a, s₁) ← readU 4 s
  let (b, s₂) ← readU 4 s₁
  let (c, s₃) ← readU 4 s₂
  some ((a, b, c), s₃)

/-- An overlay as `BSP._lmp_read_overlays` produces it, fields in the
order of the `Overlay` attrs class; float fields are bit patterns and
`texture` is the `TexInfo` object fetched from the decoded texinfo list. -/
structure Overlay (τ : Type) where
  id : Int
  origin : Nat × Nat × Nat
  normal : Nat × Nat × Nat
  texture : τ
  face_count : Nat
  faces : List Int
  render_order : Nat
  u_min : Nat
  u_max : Nat
  v_min : Nat
  v_max : Nat
  uv1 : Nat × Nat × Nat
  uv2 : Nat × Nat × Nat
  uv3 : Nat × Nat × Nat
  uv4 : Nat × Nat × Nat

/-- The trailing 22 float fields of an overlay record (`4f18f`): UV
min/max, the four corner handles, origin and normal. -/
structure OverlayFloats where
  u_min : Nat
  u_max : Nat
  v_min : Nat
  v_max : Nat
  uv1 : Nat × Nat × Nat
  uv2 : Nat × Nat × Nat
  uv3 : Nat × Nat × Nat
  uv4 : Nat × Nat × Nat
  origin : Nat × Nat × Nat
  normal : Nat × Nat × Nat

/-- Read the trailing 22 float fields of an overlay record. -/
def readOverlayFloats (s : List Nat) : Option (OverlayFloats × List Nat) := do
  let (uMin, s₁) ← readU 4 s
  let (uMax, s₂) ← readU 4 s₁
  let (vMin, s₃) ← readU 4 s₂
  let (vMax, s₄) ← readU 4 s₃
  let (uv1, s₅) ← readF3 s₄
  let (uv2, s₆) ← readF3 s₅
  let (uv3, s₇) ← readF3 s₆
  let (uv4, s₈) ← readF3 s₇
  let (origin, s₉) ← readF3 s₈
  let (normal, s₁₀) ← readF3 s₉
  some (⟨uMin, uMax, vMin, vMax, uv1, uv2, uv3, uv4, origin, normal⟩, s₁₀)

/-- Read one overlay record (`struct` format `<ihH64i4f18f`, 352 bytes)
and build the `Overlay`, mirroring `BSP._lmp_read_overlays`: the packed
word splits into a 14-bit face count (`ValueError` above 64) and the
render order in the remaining bits; the 64-slot face array is truncated to
the declared count; the texinfo reference is looked up by its signed
index; the attrs validator `render_order ∈ range(3)` runs at
construction. -/
def readOverlayRecord {τ : Type} (texinfos : List τ) (s : List Nat) :
    Option (Overlay τ × List Nat) := do
  let (overId, s₁) ← readI 4 s
  let (texIdx, s₂) ← readI 2 s₁
  let (faceRo, s₃) ← readU 2 s₂
  let faceCount := faceRo &&& ((1 <<< 14) - 1)
  let renderOrder := faceRo >>> 14
  if 64 < faceCount then none
  else do
    let (faces64, s₄) ← readVec (readI 4) 64 s₃
    let (fl, s₅) ← readOverlayFloats s₄
    let tex ← pyGet texinfos texIdx
    if renderOrder < 3 then
      some (⟨overId, fl.origin, fl.normal, tex, faceCount,
        (faces64.take faceCount), renderOrder,
        fl.u_min, fl.u_max, fl.v_min, fl.v_max,
        fl.uv1, fl.uv2, fl.uv3, fl.uv4⟩, s₅)
    else none

/-- Iterate `readOverlayRecord` a fixed number of times. -/
def overlaysDecodeGo {τ : Type} (texinfos : List τ) :
    Nat → List Nat → Option (List (Overlay τ))
  | 0, _ => some []
  | count + 1, s => do
    let (ov, s') ← readOverlayRecord texinfos s
    let rest ← overlaysDecodeGo texinfos count s'
    some (ov :: rest)

/-- The decoder `BSP._lmp_read_overlays`: `struct.iter_unpack` demands the
lump length be a multiple of the 352-byte record size, then yields one
record per 352 bytes. -/
def overlaysDecode {τ : Type} (texinfos : List τ) (data : List Nat) :
    Option (List (Overlay τ)) :=
  if data.length % 352 = 0 then
    overlaysDecodeGo texinfos (data.length / 352) data
  else none

/- ## Lemmas about signed and repeated reads -/

theorem toSigned_emod (w : Nat) (i : Int) (hw : 0 < w)
    (hlo : -(2 ^ (8 * w - 1)) ≤ i) (hhi : i < 2 ^ (8 * w - 1)) :
    toSigned w ((i.emod (2 ^ (8 * w))).toNat) = i := by
  have hsplit : (2 : Int) ^ (8 * w) = 2 ^ (8 * w - 1) * 2 := by
    rw [← pow_succ]
    congr 1
    omega
  have hppos : (0 : Int) < 2 ^ (8 * w - 1) := by positivity
  have hmInt : ((2 ^ (8 * w - 1) : Nat) : Int) = 2 ^ (8 * w - 1) := by
    push_cast
    ring
  by_cases h0 : 0 ≤ i
  · have hmod : i.emod (2 ^ (8 * w)) = i :=
      Int.emod_eq_of_lt h0 (by rw [hsplit]; linarith)
    have hc : i.toNat < 2 ^ (8 * w - 1) := by
      have h2 : (i.toNat : Int) < ((2 ^ (8 * w - 1) : Nat) : Int) := by
        rw [Int.toNat_of_nonneg h0, hmInt]
        exact hhi
      exact_mod_cast h2
    rw [hmod]
    unfold toSigned
    rw [if_pos hc, Int.toNat_of_nonneg h0]
  · push_neg at h0
    have hmod : i.emod (2 ^ (8 * w)) = i + 2 ^ (8 * w) := by
      have h2 : (i + 2 ^ (8 * w) * 1).emod (2 ^ (8 * w)) =
          i.emod (2 ^ (8 * w)) := Int.add_mul_emod_self_left i (2 ^ (8 * w)) 1
      rw [mul_one] at h2
      rw [← h2]
      exact Int.emod_eq_of_lt (by rw [hsplit]; linarith) (by linarith)
    have hge0 : 0 ≤ i + 2 ^ (8 * w) := by rw [hsplit]; linarith
    have htn : ((i + 2 ^ (8 * w)).toNat : Int) = i + 2 ^ (8 * w) :=
      Int.toNat_of_nonneg hge0
    have hcond : ¬ ((i + 2 ^ (8 * w)).toNat < 2 ^ (8 * w - 1)) := by
      intro hcon
      have h2 : ((i + 2 ^ (8 * w)).toNat : Int) <
          ((2 ^ (8 * w - 1) : Nat) : Int) := by exact_mod_cast hcon
      rw [htn, hmInt, hsplit] at h2
      linarith
    rw [hmod]
    unfold toSigned
    rw [if_neg hcond, htn]
    ring

theorem readI_append (w : Nat) (hw : 0 < w) (i : Int)
    (hlo : -(2 ^ (8 * w - 1)) ≤ i) (hhi : i < 2 ^ (8 * w - 1))
    (rest : List Nat) :
    readI w (intToLe w i ++ rest) = some (i, rest) := by
  have hmpos : (0 : Int) < 2 ^ (8 * w) := by positivity
  have hlt : (i.emod (2 ^ (8 * w))).toNat < 256 ^ w := by
    have h1 : i.emod (2 ^ (8 * w)) < 2 ^ (8 * w) := Int.emod_lt_of_pos i hmpos
    have h2 : (256 : Nat) ^ w = 2 ^ (8 * w) := by
      rw [show (256 : Nat) = 2 ^ 8 from rfl, ← pow_mul]
    rw [h2]
    have hnn : 0 ≤ i.emod (2 ^ (8 * w)) := Int.emod_nonneg i (ne_of_gt hmpos)
    have h3 : ((i.emod (2 ^ (8 * w))).toNat : Int) <
        ((2 ^ (8 * w) : Nat) : Int) := by
      rw [Int.toNat_of_nonneg hnn]
      push_cast
      exact h1
    exact_mod_cast h3
  unfold readI intToLe
  rw [readU_append w _ hlt]
  simp [toSigned_emod w i hw hlo hhi]

theorem readVec_intToLe4 : ∀ (xs : List Int),
    (∀ x ∈ xs, -(2 ^ 31) ≤ x ∧ x < 2 ^ 31) →
    ∀ (rest : List Nat),
    readVec (readI 4) xs.length (xs.flatMap (intToLe 4) ++ rest) =
      some (xs, rest) := by
  intro xs
  induction xs with
  | nil => intro _ rest; rfl
  | cons x xs ih =>
    intro h rest
    have h1 := (h x (by simp)).1
    have h2 := (h x (by simp)).2
    simp only [List.flatMap_cons, List.append_assoc, List.length_cons]
    unfold readVec
    simp [readI_append 4 (by norm_num) x h1 h2,
      ih (fun y hy => h y (by simp [hy]))]

theorem intToLe_length (w : Nat) (i : Int) : (intToLe w i).length = w := by
  simp [intToLe, natToLe_length]

theorem f3le_length (t : Nat × Nat × Nat) : (f3le t).length = 12 := by
  simp [f3le, natToLe_length]

theorem readF3_append (t : Nat × Nat × Nat)
    (h1 : t.1 < 2 ^ 32) (h2 : t.2.1 < 2 ^ 32) (h3 : t.2.2 < 2 ^ 32)
    (rest : List Nat) :
    readF3 (f3le t ++ rest) = some (t, rest) := by
  obtain ⟨a, b, c⟩ := t
  have e : (2 : Nat) ^ 32 = 256 ^ 4 := by norm_num
  rw [e] at h1 h2 h3
  unfold readF3 f3le
  simp [List.append_assoc, readU_append 4 a h1, readU_append 4 b h2,
    readU_append 4 c h3]

theorem flatMap_length_const {α : Type} (f : α → List Nat) (k : Nat) :
    ∀ (l : List α), (∀ x ∈ l, (f x).length = k) →
    (l.flatMap f).length = k * l.length := by
  intro l
  induction l with
  | nil => intro _; simp
  | cons x xs ih =>
    intro h
    rw [List.flatMap_cons, List.length_append, h x (by simp),
      ih (fun y hy => h y (by simp [hy])), List.length_cons]
    ring


/-- The predicate that a float-pattern triple fits in 32 bits. -/
def W3 (t : Nat × Nat × Nat) : Prop :=
  t.1 < 2 ^ 32 ∧ t.2.1 < 2 ^ 32 ∧ t.2.2 < 2 ^ 32

/-- All 22 float patterns of an overlay's trailing block fit in 32 bits. -/
def OverlayFloatsW (fl : OverlayFloats) : Prop :=
  fl.u_min < 2 ^ 32 ∧ fl.u_max < 2 ^ 32 ∧ fl.v_min < 2 ^ 32 ∧
  fl.v_max < 2 ^ 32 ∧ W3 fl.uv1 ∧ W3 fl.uv2 ∧ W3 fl.uv3 ∧ W3 fl.uv4 ∧
  W3 fl.origin ∧ W3 fl.normal

/-- The 88 raw bytes of an overlay record's trailing float block. -/
def overlayFloatsBytes (fl : OverlayFloats) : List Nat :=
  natToLe 4 fl.u_min ++ natToLe 4 fl.u_max ++ natToLe 4 fl.v_min ++
  natToLe 4 fl.v_max ++ f3le fl.uv1 ++ f3le fl.uv2 ++ f3le fl.uv3 ++
  f3le fl.uv4 ++ f3le fl.origin ++ f3le fl.normal

theorem readOverlayFloats_append (fl : OverlayFloats)
    (hw : OverlayFloatsW fl) (rest : List Nat) :
    readOverlayFloats (overlayFloatsBytes fl ++ rest) = some (fl, rest) := by
  obtain ⟨u1, u2, v1, v2, t1, t2, t3, t4, og, nm⟩ := fl
  obtain ⟨hu1, hu2, hv1, hv2, ht1, ht2, ht3, ht4, hog, hnm⟩ := hw
  have h2to4 : (2 : Nat) ^ 32 = 256 ^ 4 := by norm_num
  unfold readOverlayFloats overlayFloatsBytes
  simp only [List.append_assoc,
    readU_append 4 u1 (h2to4 ▸ hu1),
    readU_append 4 u2 (h2to4 ▸ hu2),
    readU_append 4 v1 (h2to4 ▸ hv1),
    readU_append 4 v2 (h2to4 ▸ hv2),
    readF3_append t1 ht1.1 ht1.2.1 ht1.2.2,
    readF3_append t2 ht2.1 ht2.2.1 ht2.2.2,
    readF3_append t3 ht3.1 ht3.2.1 ht3.2.2,
    readF3_append t4 ht4.1 ht4.2.1 ht4.2.2,
    readF3_append og hog.1 hog.2.1 hog.2.2,
    readF3_append nm hnm.1 hnm.2.1 hnm.2.2,
    Option.bind_eq_bind, Option.some_bind]

theorem overlayFloatsBytes_length (fl : OverlayFloats) :
    (overlayFloatsBytes fl).length = 88 := by
  simp [overlayFloatsBytes, natToLe_length, f3le_length]

/-- Assemble the 352 raw bytes of one overlay record from field values: a
test fixture builder (the repository has no overlay encoder;
`BSP._lmp_write_overlays` raises `NotImplementedError`). -/
def mkOverlayBytes (overId texIdx : Int) (faceRo : Nat) (faces64 : List Int)
    (fl : OverlayFloats) : List Nat :=
  intToLe 4 overId ++ intToLe 2 texIdx ++ natToLe 2 faceRo ++
  faces64.flatMap (intToLe 4) ++ overlayFloatsBytes fl

theorem mkOverlayBytes_length (overId texIdx : Int) (faceRo : Nat)
    (faces64 : List Int) (fl : OverlayFloats)
    (hflen : faces64.length = 64) :
    (mkOverlayBytes overId texIdx faceRo faces64 fl).length = 352 := by
  unfold mkOverlayBytes
  simp [natToLe_length, intToLe_length, overlayFloatsBytes_length, hflen,
    flatMap_length_const (intToLe 4) 4 faces64 (fun x _ => intToLe_length 4 x)]

set_option maxHeartbeats 1000000 in
/-- C6: for every overlay record, decode takes the low 14 bits of the
packed face-count-and-render-order word as the face count and the
remaining high bits as the render order; a face count above 64 is a decode
error; otherwise (with the render order in the validator's range and the
texinfo reference resolvable) the decoded faces list is exactly the first
face-count entries of the 64-slot face array. -/
theorem overlay_packed_field {τ : Type} (texinfos : List τ)
    (overId texIdx : Int) (faceRo : Nat) (faces64 : List Int)
    (fl : OverlayFloats)
    (hid₁ : -(2 ^ 31) ≤ overId) (hid₂ : overId < 2 ^ 31)
    (ht₁ : -(2 ^ 15) ≤ texIdx) (ht₂ : texIdx < 2 ^ 15)
    (hro : faceRo < 2 ^ 16)
    (hflen : faces64.length = 64)
    (hfb : ∀ x ∈ faces64, -(2 ^ 31) ≤ x ∧ x < 2 ^ 31)
    (hfw : OverlayFloatsW fl) :
    (64 < faceRo % 2 ^ 14 →
      overlaysDecode texinfos
        (mkOverlayBytes overId texIdx faceRo faces64 fl) = none) ∧
    (∀ tex, faceRo % 2 ^ 14 ≤ 64 → faceRo / 2 ^ 14 < 3 →
      pyGet texinfos texIdx = some tex →
      overlaysDecode texinfos
        (mkOverlayBytes overId texIdx faceRo faces64 fl) =
      some [⟨overId, fl.origin, fl.normal, tex, faceRo % 2 ^ 14,
        faces64.take (faceRo % 2 ^ 14), faceRo / 2 ^ 14,
        fl.u_min, fl.u_max, fl.v_min, fl.v_max,
        fl.uv1, fl.uv2, fl.uv3, fl.uv4⟩]) := by
  have hro' : faceRo < 256 ^ 2 := by
    have : (256 : Nat) ^ 2 = 2 ^ 16 := by norm_num
    omega
  have hvec := hflen ▸ readVec_intToLe4 faces64 hfb
  have hlen352 := mkOverlayBytes_length overId texIdx faceRo faces64 fl hflen
  have hrec : ∀ (res : Option (Overlay τ × List Nat)),
      readOverlayRecord texinfos
        (mkOverlayBytes overId texIdx faceRo faces64 fl ++ []) = res →
      overlaysDecode texinfos (mkOverlayBytes overId texIdx faceRo faces64 fl) =
      res.map fun p => [p.1] := by
    intro res hres
    unfold overlaysDecode
    rw [hlen352]
    norm_num
    unfold overlaysDecodeGo
    rw [← List.append_nil (mkOverlayBytes overId texIdx faceRo faces64 fl),
      hres]
    cases res with
    | none => rfl
    | some p => rfl
  constructor
  · intro hcount
    apply (hrec none ?_).trans rfl
    unfold readOverlayRecord
    unfold mkOverlayBytes
    simp only [List.append_assoc,
      readI_append 4 (by norm_num) overId hid₁ hid₂,
      readI_append 2 (by norm_num) texIdx ht₁ ht₂,
      readU_append 2 faceRo hro',
      Nat.one_shiftLeft, Nat.and_pow_two_sub_one_eq_mod,
      if_pos hcount, Option.bind_eq_bind, Option.some_bind]
  · intro tex hcount hrender htex
    refine (hrec (some (⟨overId, fl.origin, fl.normal, tex, faceRo % 2 ^ 14,
      faces64.take (faceRo % 2 ^ 14), faceRo / 2 ^ 14,
      fl.u_min, fl.u_max, fl.v_min, fl.v_max,
      fl.uv1, fl.uv2, fl.uv3, fl.uv4⟩, [])) ?_).trans rfl
    unfold readOverlayRecord
    unfold mkOverlayBytes
    simp only [List.append_assoc,
      readI_append 4 (by norm_num) overId hid₁ hid₂,
      readI_append 2 (by norm_num) texIdx ht₁ ht₂,
      readU_append 2 faceRo hro',
      Nat.one_shiftLeft, Nat.and_pow_two_sub_one_eq_mod,
      Nat.shiftRight_eq_div_pow,
      if_neg (not_lt.mpr hcount), hvec,
      readOverlayFloats_append fl hfw,
      htex, if_pos hrender, Option.bind_eq_bind, Option.some_bind]

/-- Witness for C6: a concrete record whose packed word 32771 splits into
face count 3 and render order 2, truncating the face array to its first 3
entries, and one whose face count 65 exceeds the cap and fails. -/
theorem overlay_packed_field_witness :
    overlaysDecode [5] (mkOverlayBytes 1 0 32771 (List.replicate 64 9)
      ⟨0, 0, 0, 0, (0, 0, 0), (0, 0, 0), (0, 0, 0), (0, 0, 0), (0, 0, 0),
        (0, 0, 0)⟩) =
      some [⟨1, (0, 0, 0), (0, 0, 0), 5, 3, [9, 9, 9], 2,
        0, 0, 0, 0, (0, 0, 0), (0, 0, 0), (0, 0, 0), (0, 0, 0)⟩] ∧
    overlaysDecode [5] (mkOverlayBytes 1 0 65 (List.replicate 64 9)
      ⟨0, 0, 0, 0, (0, 0, 0), (0, 0, 0), (0, 0, 0), (0, 0, 0), (0, 0, 0),
        (0, 0, 0)⟩) = none := by
  constructor
  · have h := (overlay_packed_field [5] 1 0 32771 (List.replicate 64 9)
      ⟨0, 0, 0, 0, (0, 0, 0), (0, 0, 0), (0, 0, 0), (0, 0, 0), (0, 0, 0),
        (0, 0, 0)⟩
      (by norm_num) (by norm_num) (by norm_num) (by norm_num) (by norm_num)
      (by simp) (by decide)
      (by norm_num [OverlayFloatsW, W3])).2
      5 (by norm_num) (by norm_num) (by decide)
    rw [h]
    norm_num
    decide
  · exact (overlay_packed_field [5] 1 0 65 (List.replicate 64 9)
      ⟨0, 0, 0, 0, (0, 0, 0), (0, 0, 0), (0, 0, 0), (0, 0, 0), (0, 0, 0),
        (0, 0, 0)⟩
      (by norm_num) (by norm_num) (by norm_num) (by norm_num) (by norm_num)
      (by simp) (by decide)
      (by norm_num [OverlayFloatsW, W3])).1
      (by norm_num)

/- ## Visibility tree builder (`BSP.vis_tree`) -/

/-- A leaf as `BSP.vis_tree` builds it (`VisLeaf(i, area, flags, ...)`);
`id` is the leaf's flat-array index, `area` the arithmetic right-shift by
7 of the packed signed field and `flags` its low 7 bits. -/
structure VisLeaf where
  id : Nat
  area : Int
  flags : Int
  mins : Int × Int × Int
  maxes : Int × Int × Int
  first_face : Nat
  face_count : Nat
  first_brush : Nat
  brush_count : Nat
  water_id : Int
deriving DecidableEq

/-- The data of one tree node (`VisTree(plane_norm, plane_dist, mins,
maxes)`); the children are linked afterwards. -/
structure VisNodeData where
  plane_norm : Nat × Nat × Nat
  plane_dist : Nat
  mins : Int × Int × Int
  maxes : Int × Int × Int
deriving DecidableEq

/-- A linked child slot: either a leaf object or a reference to the node
at the given flat-array index (Python links the node objects themselves;
the index stands for that object identity). -/
inductive VisChild where
  | leaf : VisLeaf → VisChild
  | node : Nat → VisChild
deriving DecidableEq

/-- Read a triple of signed 16-bit bounds. -/
def readI3 (s : List Nat) : Option ((Int × Int × Int) × List Nat) := do
  let (a, s₁) ← readI 2 s
  let (b, s₂) ← readI 2 s₁
  let (c, s₃) ← readI 2 s₂
  some ((a, b, c), s₃)

/-- Read one plane record (`<ffffi`, 20 bytes): normal, distance, and a
flag field that `vis_tree` discards. -/
def readPlane (s : List Nat) : Option (((Nat × Nat × Nat) × Nat) × List Nat) := do
  let (norm, s₁) ← readF3 s
  let (dist, s₂) ← readU 4 s₁
  let (_, s₃) ← readI 4 s₂
  some ((norm, dist), s₃)

/-- Read one node record (`<iii6hHHh2x`, 32 bytes), resolving the plane by
its signed index; the face range and area fields are read but not stored,
exactly as in `vis_tree`. Returns the node data plus its two raw child
indices. -/
def readNodeRec (planes : List ((Nat × Nat × Nat) × Nat)) (s : List Nat) :
    Option ((VisNodeData × Int × Int) × List Nat) := do
  let (planeInd, s₁) ← readI 4 s
  let (negInd, s₂) ← readI 4 s₁
  let (posInd, s₃) ← readI 4 s₂
  let (mins, s₄) ← readI3 s₃
  let (maxes, s₅) ← readI3 s₄
  let (_, s₆) ← readU 2 s₅
  let (_, s₇) ← readU 2 s₆
  let (_, s₈) ← readI 2 s₇
  let (_, s₉) ← readN 2 s₈
  let p ← pyGet planes planeInd
  some ((⟨p.1, p.2, mins, maxes⟩, negInd, posInd), s₉)

/-- Read one leaf record (`<ihh6h4Hh2x`, plus 26 further pad bytes of
ambient-light data when the BSP version is 19 or older); contents and
cluster are read but not stored; the packed area-and-flags field splits
arithmetically (Python `>> 7` and `& 0b1111111` on a signed value). -/
def readLeafRec (version : Nat) (idx : Nat) (s : List Nat) :
    Option (VisLeaf × List Nat) := do
  let (_, s₁) ← readI 4 s
  let (_, s₂) ← readI 2 s₁
  let (af, s₃) ← readI 2 s₂
  let (mins, s₄) ← readI3 s₃
  let (maxes, s₅) ← readI3 s₄
  let (ff, s₆) ← readU 2 s₅
  let (nf, s₇) ← readU 2 s₆
  let (fb, s₈) ← readU 2 s₇
  let (nb, s₉) ← readU 2 s₈
  let (w, s₁₀) ← readI 2 s₉
  let (_, s₁₁) ← readN 2 s₁₀
  let (_, s₁₂) ← if version ≤ 19 then readN 26 s₁₁ else some ([], s₁₁)
  some (⟨idx, Int.fdiv af 128, af.emod 128, mins, maxes, ff, nf, fb, nb, w⟩,
    s₁₂)

/-- Run a record reader a fixed number of times. -/
def parseRecordsGo {α : Type} (rd : List Nat → Option (α × List Nat)) :
    Nat → List Nat → Option (List α)
  | 0, _ => some []
  | n + 1, s => do
    let (a, s') ← rd s
    let rest ← parseRecordsGo rd n s'
    some (a :: rest)

/-- `struct.iter_unpack`: the data length must be a multiple of the record
size; one record per `size` bytes. -/
def parseRecords {α : Type} (rd : List Nat → Option (α × List Nat))
    (size : Nat) (data : List Nat) : Option (List α) :=
  if data.length % size = 0 then parseRecordsGo rd (data.length / size) data
  else none

/-- Read the leaf array, numbering leaves by their flat index
(`enumerate` in the source). -/
def readLeafsGo (version : Nat) : Nat → Nat → List Nat →
    Option (List VisLeaf)
  | _, 0, _ => some []
  | idx, n + 1, s => do
    let (l, s') ← readLeafRec version idx s
    let rest ← readLeafsGo version (idx + 1) n s'
    some (l :: rest)

/-- Parse the LEAFS lump (record width 58 bytes for version 19 and older,
else 32). -/
def parseLeafs (version : Nat) (data : List Nat) : Option (List VisLeaf) :=
  let size := if version ≤ 19 then 58 else 32
  if data.length % size = 0 then
    readLeafsGo version 0 (data.length / size) data
  else none

/-- Resolve one raw child index, as the linking loop of `vis_tree` does: a
negative `c` selects the leaf at index `-1 - c`, a non-negative `c` the
node at index `c` (`none` models the `IndexError` on an out-of-range
reference). -/
def linkChild (numNodes : Nat) (leafs : List VisLeaf) (c : Int) :
    Option VisChild :=
  if c < 0 then (pyGet leafs (-1 - c)).map VisChild.leaf
  else if c < numNodes then some (VisChild.node c.toNat) else none

/-- Link both child slots of one node. -/
def linkNode (numNodes : Nat) (leafs : List VisLeaf)
    (entry : VisNodeData × Int × Int) :
    Option (VisNodeData × VisChild × VisChild) := do
  let cn ← linkChild numNodes leafs entry.2.1
  let cp ← linkChild numNodes leafs entry.2.2
  some (entry.1, cn, cp)

/-- The result of `vis_tree`: the linked node arena and the returned root,
`nodes[0]`. -/
structure VisTreeOut where
  nodes : List (VisNodeData × VisChild × VisChild)
  root : VisNodeData × VisChild × VisChild
deriving DecidableEq

/-- `BSP.vis_tree`: parse the planes, nodes and leaves lumps into flat
arrays first (no cross references), then link every node's two child
slots, and return the node at flat-array index 0 as the tree root. -/
def visTree (version : Nat) (planesData nodesData leafsData : List Nat) :
    Option VisTreeOut := do
  let planes ← parseRecords readPlane 20 planesData
  let nodesRaw ← parseRecords (readNodeRec planes) 32 nodesData
  let leafs ← parseLeafs version leafsData
  let linked ← nodesRaw.mapM (linkNode nodesRaw.length leafs)
  let root ← linked[0]?
  some ⟨linked, root⟩

/-- C7: the builder materializes all nodes and leaves, then resolves each
child slot holding `c` to the leaf at `-1 - c` when `c` is negative and to
the node at index `c` otherwise, returning flat index 0 as the root; in
particular the 1-node, 2-leaf input with children `{-1, -2}` yields a root
whose negative child is leaf 0 and positive child is leaf 1. -/
theorem vis_tree_linking :
    (visTree 20 (List.replicate 20 0)
        ([0, 0, 0, 0, 255, 255, 255, 255, 254, 255, 255, 255] ++
          List.replicate 20 0)
        (List.replicate 64 0) =
      some ⟨[(⟨(0, 0, 0), 0, (0, 0, 0), (0, 0, 0)⟩,
          VisChild.leaf ⟨0, 0, 0, (0, 0, 0), (0, 0, 0), 0, 0, 0, 0, 0⟩,
          VisChild.leaf ⟨1, 0, 0, (0, 0, 0), (0, 0, 0), 0, 0, 0, 0, 0⟩)],
        (⟨(0, 0, 0), 0, (0, 0, 0), (0, 0, 0)⟩,
          VisChild.leaf ⟨0, 0, 0, (0, 0, 0), (0, 0, 0), 0, 0, 0, 0, 0⟩,
          VisChild.leaf ⟨1, 0, 0, (0, 0, 0), (0, 0, 0), 0, 0, 0, 0, 0⟩)⟩) ∧
    (∀ (numNodes : Nat) (leafs : List VisLeaf) (c : Int),
      (c < 0 →
        linkChild numNodes leafs c = (pyGet leafs (-1 - c)).map VisChild.leaf) ∧
      (0 ≤ c →
        linkChild numNodes leafs c =
          if c < numNodes then some (VisChild.node c.toNat) else none)) := by
  constructor
  · decide
  · intro numNodes leafs c
    constructor
    · intro hc
      unfold linkChild
      rw [if_pos hc]
    · intro hc
      unfold linkChild
      rw [if_neg (not_lt.mpr hc)]

/-- Witness for C7: the resolution rule evaluated at children `-1`, `-2`
and a non-negative reference. -/
theorem vis_tree_linking_witness :
    linkChild 1 [⟨0, 0, 0, (0, 0, 0), (0, 0, 0), 0, 0, 0, 0, 0⟩,
        ⟨1, 0, 0, (0, 0, 0), (0, 0, 0), 0, 0, 0, 0, 0⟩] (-1) =
      (pyGet [⟨0, 0, 0, (0, 0, 0), (0, 0, 0), 0, 0, 0, 0, 0⟩,
        ⟨1, 0, 0, (0, 0, 0), (0, 0, 0), 0, 0, 0, 0, 0⟩]
          (-1 - (-1))).map VisChild.leaf ∧
    linkChild 3 [] 1 = some (VisChild.node 1) :=
  ⟨((vis_tree_linking.2 1 [⟨0, 0, 0, (0, 0, 0), (0, 0, 0), 0, 0, 0, 0, 0⟩,
      ⟨1, 0, 0, (0, 0, 0), (0, 0, 0), 0, 0, 0, 0, 0⟩] (-1)).1 (by decide)),
    ((vis_tree_linking.2 3 [] 1).2 (by decide)).trans (by decide)⟩

/- ## Versioned static-prop codec
(`BSP.static_props` / `BSP.write_static_props`) -/

/-- The flag bits the `StaticPropFlags` enum defines: the whole primary
byte plus `NO_FLASHLIGHT` (0x100) and `BOUNCED_LIGHTING` (0x400);
constructing the Python `Flag` from a value with any other bit set raises
`ValueError`. -/
def StaticPropFlagsMask : Nat := 0x5FF

/-- The float32 bit pattern of 1.0, the decode-side default for
`fade_scale` and `scaling` on versions that do not carry them. -/
def F32_ONE : Nat := 1065353216

/-- A static prop, fields in the order of the `StaticProp` attrs class;
float fields are bit patterns, `flags` is the full flag-bitset value
(primary byte plus secondary bits above it). -/
structure StaticProp where
  model : List Nat
  origin : Nat × Nat × Nat
  angles : Nat × Nat × Nat
  scaling : Nat
  visleafs : List Nat
  solidity : Nat
  flags : Nat
  skin : Int
  min_fade : Nat
  max_fade : Nat
  lighting : Nat × Nat × Nat
  fade_scale : Nat
  min_dx_level : Nat
  max_dx_level : Nat
  min_cpu_level : Nat
  max_cpu_level : Nat
  min_gpu_level : Nat
  max_gpu_level : Nat
  tint : Nat × Nat × Nat
  renderfx : Nat
  disable_on_xbox : Bool
deriving DecidableEq

/-- Strip trailing NUL bytes (`bytes.rstrip(b'\x00')`). -/
def stripTrailingZeros (l : List Nat) : List Nat :=
  (l.reverse.dropWhile (· = 0)).reverse

/-- Read one 128-byte NUL-padded model name
(`BSP._read_static_props_models`): strip trailing NULs and ASCII-decode. -/
def readPropName (s : List Nat) : Option (List Nat × List Nat) := do
  let (raw, s') ← readN 128 s
  let name := stripTrailingZeros raw
  if name.all (· < 128) then some (name, s') else none

/-- The version-independent head of one prop record (56 bytes): origin,
orientation, model index, leaf range, solidity, primary flag byte, skin,
fade distances, lighting origin; the model name is resolved from the
table and the leaf slice taken from the flat leaf array. -/
structure PropBase where
  origin : Nat × Nat × Nat
  angles : Nat × Nat × Nat
  model : List Nat
  visleafs : List Nat
  solidity : Nat
  flagsByte : Nat
  skin : Int
  min_fade : Nat
  max_fade : Nat
  lighting : Nat × Nat × Nat
deriving DecidableEq

/-- Read the version-independent head of one prop record. -/
def readPropBase (models : List (List Nat)) (leaves : List Nat)
    (s : List Nat) : Option (PropBase × List Nat) := do
  let (origin, s₁) ← readF3 s
  let (angles, s₂) ← readF3 s₁
  let (modelInd, s₃) ← readU 2 s₂
  let (firstLeaf, s₄) ← readU 2 s₃
  let (leafCount, s₅) ← readU 2 s₄
  let (solidity, s₆) ← readU 1 s₅
  let (flagsByte, s₇) ← readU 1 s₆
  let (skin, s₈) ← readI 4 s₇
  let (minFade, s₉) ← readU 4 s₈
  let (maxFade, s₁₀) ← readU 4 s₉
  let modelName ← models[modelInd]?
  let visleafs := (leaves.drop firstLeaf).take leafCount
  let (lighting, s₁₁) ← readF3 s₁₀
  some (⟨origin, angles, modelName, visleafs, solidity, flagsByte, skin,
    minFade, maxFade, lighting⟩, s₁₁)

/-- Version 5+: the fade-scale float; default 1 below that. -/
def readFadeScale (version : Nat) (s : List Nat) :
    Option (Nat × List Nat) :=
  if 5 ≤ version then readU 4 s else some (F32_ONE, s)

/-- Versions 6 and 7 only: the min/max detail-level pair; zero defaults
otherwise. -/
def readDxLevels (version : Nat) (s : List Nat) :
    Option ((Nat × Nat) × List Nat) :=
  if version = 6 ∨ version = 7 then do
    let (a, t₁) ← readU 2 s
    let (b, t₂) ← readU 2 t₁
    some ((a, b), t₂)
  else some ((0, 0), s)

/-- Version 8+: the min/max CPU and GPU levels; zero defaults otherwise. -/
def readCpuGpu (version : Nat) (s : List Nat) :
    Option ((Nat × Nat × Nat × Nat) × List Nat) :=
  if 8 ≤ version then do
    let (a, t₁) ← readU 1 s
    let (b, t₂) ← readU 1 t₁
    let (c, t₃) ← readU 1 t₂
    let (d, t₄) ← readU 1 t₃
    some ((a, b, c, d), t₄)
  else some ((0, 0, 0, 0), s)

/-- Version 7+: tint and render-fx; opaque white and 255 otherwise. -/
def readTintFx (version : Nat) (s : List Nat) :
    Option (((Nat × Nat × Nat) × Nat) × List Nat) :=
  if 7 ≤ version then do
    let (r, t₁) ← readU 1 s
    let (g, t₂) ← readU 1 t₁
    let (b, t₃) ← readU 1 t₂
    let (fx, t₄) ← readU 1 t₃
    some (((r, g, b), fx), t₄)
  else some (((255, 255, 255), 255), s)

/-- Version 11+: the unknown 32-bit value, read and discarded. -/
def readUnknownV11 (version : Nat) (s : List Nat) :
    Option (Unit × List Nat) :=
  if 11 ≤ version then (readI 4 s).map fun p => ((), p.2)
  else some ((), s)

/-- Version 10+: merge the secondary flag dword above the primary byte
(`flags |= sec << 8`). -/
def readFlagsRest (version : Nat) (flagsByte : Nat) (s : List Nat) :
    Option (Nat × List Nat) :=
  if 10 ≤ version then
    (readU 4 s).map fun p => (flagsByte ||| (p.1 <<< 8), p.2)
  else some (flagsByte, s)

/-- Version 11+: the uniform scale replaces the legacy-hardware flag;
versions 9-10: the padded boolean disabling the prop on old hardware. -/
def readScaleXbox (version : Nat) (s : List Nat) :
    Option ((Nat × Bool) × List Nat) :=
  if 11 ≤ version then
    (readU 4 s).map fun p => ((p.1, false), p.2)
  else if 9 ≤ version then do
    let (b, t₁) ← readU 1 s
    let (_, t₂) ← readN 3 t₁
    some ((F32_ONE, b != 0), t₂)
  else some ((F32_ONE, false), s)

/-- Read one static-prop record at the given format version
(`BSP.static_props`, the per-prop loop), conditional fields in exactly
the source's order; constructing `StaticPropFlags` rejects undefined
bits. -/
def readProp (version : Nat) (models : List (List Nat))
    (leaves : List Nat) (s : List Nat) : Option (StaticProp × List Nat) := do
  let (base, s₁) ← readPropBase models leaves s
  let (fadeScale, s₂) ← readFadeScale version s₁
  let (dx, s₃) ← readDxLevels version s₂
  let (cg, s₄) ← readCpuGpu version s₃
  let (tintFx, s₅) ← readTintFx version s₄
  let (_, s₆) ← readUnknownV11 version s₅
  let (flags, s₇) ← readFlagsRest version base.flagsByte s₆
  if flags &&& StaticPropFlagsMask = flags then do
    let (sx, s₈) ← readScaleXbox version s₇
    some (⟨base.model, base.origin, base.angles, sx.1, base.visleafs,
      base.solidity, flags, base.skin, base.min_fade, base.max_fade,
      base.lighting, fadeScale, dx.1, dx.2, cg.1, cg.2.1, cg.2.2.1,
      cg.2.2.2, tintFx.1, tintFx.2, sx.2⟩, s₈)
  else none

/-- The decoder `BSP.static_props` (its generator collected to a list):
hard failure outside versions 4-11, then the model-name table, the flat
leaf array, and the prop records; trailing bytes are ignored as in the
source. -/
def staticPropsDecode (version : Nat) (data : List Nat) :
    Option (List StaticProp) :=
  if 11 < version then none
  else if version < 4 then none
  else do
    let (dictNum, s₁) ← readI 4 data
    let (models, s₂) ← readVec readPropName dictNum.toNat s₁
    let (leafCount, s₃) ← readI 4 s₂
    let (leaves, s₄) ← readVec (readU 2) leafCount.toNat s₃
    let (propCount, s₅) ← readI 4 s₄
    let (props, _) ← readVec (readProp version models leaves)
      propCount.toNat s₅
    some props

/-- Encode a float-pattern triple (`struct.pack` of three floats). -/
def packF3 (t : Nat × Nat × Nat) : Option (List Nat) := do
  let a ← packU 4 t.1
  let b ← packU 4 t.2.1
  let c ← packU 4 t.2.2
  some (a ++ b ++ c)

/-- Encode the version-independent head of one prop record (the first two
`prop_lump.write` calls of the per-prop loop). -/
def writePropBase (modelInd : Nat) (leafOff : Nat) (p : StaticProp) :
    Option (List Nat) := do
  let b₁ ← packF3 p.origin
  let b₂ ← packF3 p.angles
  let b₃ ← packU 2 modelInd
  let b₄ ← packU 2 leafOff
  let b₅ ← packU 2 p.visleafs.length
  let b₆ ← packU 1 p.solidity
  let b₇ ← packU 1 (p.flags &&& 0xFF)
  let b₈ ← packI 4 p.skin
  let b₉ ← packU 4 p.min_fade
  let b₁₀ ← packU 4 p.max_fade
  let b₁₁ ← packF3 p.lighting
  some (b₁ ++ b₂ ++ b₃ ++ b₄ ++ b₅ ++ b₆ ++ b₇ ++ b₈ ++ b₉ ++ b₁₀ ++ b₁₁)

/-- Version 5+: write the fade-scale float. -/
def writeFadeScale (version : Nat) (p : StaticProp) : Option (List Nat) :=
  if 5 ≤ version then packU 4 p.fade_scale else some []

/-- Versions 6 and 7 only: write the detail-level pair. -/
def writeDxLevels (version : Nat) (p : StaticProp) : Option (List Nat) :=
  if version = 6 ∨ version = 7 then do
    let x ← packU 2 p.min_dx_level
    let y ← packU 2 p.max_dx_level
    some (x ++ y)
  else some []

/-- Version 8+: write the CPU/GPU level bytes. -/
def writeCpuGpu (version : Nat) (p : StaticProp) : Option (List Nat) :=
  if 8 ≤ version then do
    let a ← packU 1 p.min_cpu_level
    let b ← packU 1 p.max_cpu_level
    let c ← packU 1 p.min_gpu_level
    let d ← packU 1 p.max_gpu_level
    some (a ++ b ++ c ++ d)
  else some []

/-- Version 7+: write tint and render-fx. -/
def writeTintFx (version : Nat) (p : StaticProp) : Option (List Nat) :=
  if 7 ≤ version then do
    let r ← packU 1 p.tint.1
    let g ← packU 1 p.tint.2.1
    let bl ← packU 1 p.tint.2.2
    let fx ← packU 1 p.renderfx
    some (r ++ g ++ bl ++ fx)
  else some []

/-- Version 10+: write the secondary-flag dword (`flags.value_sec`). -/
def writeFlagsSec (version : Nat) (p : StaticProp) : Option (List Nat) :=
  if 10 ≤ version then packU 4 (p.flags >>> 8) else some []

/-- Version 11+: write `<xxxxf>` (four pad bytes, then the scale);
versions 9-10: the padded legacy-hardware boolean. -/
def writeScaleXbox (version : Nat) (p : StaticProp) : Option (List Nat) :=
  if 11 ≤ version then
    (packU 4 p.scaling).map ([0, 0, 0, 0] ++ ·)
  else if 9 ≤ version then
    some ((if p.disable_on_xbox then [1] else [0]) ++ [0, 0, 0])
  else some []

/-- Encode one static-prop record (`BSP.write_static_props`, the per-prop
loop), with the leaf-array offset re-derived by the caller; conditional
fields in exactly the source's order (note: at version 10+ the secondary
flags are written, and at 11+ the four pad bytes precede the scale). -/
def writeProp (version : Nat) (modelInd : Nat) (leafOff : Nat)
    (p : StaticProp) : Option (List Nat) := do
  let b₁ ← writePropBase modelInd leafOff p
  let b₂ ← writeFadeScale version p
  let b₃ ← writeDxLevels version p
  let b₄ ← writeCpuGpu version p
  let b₅ ← writeTintFx version p
  let b₆ ← writeFlagsSec version p
  let b₇ ← writeScaleXbox version p
  some (b₁ ++ b₂ ++ b₃ ++ b₄ ++ b₅ ++ b₆ ++ b₇)

/-- The per-prop offsets into the rebuilt flat leaf array (the
`leaf_offsets` accumulation of `write_static_props`). -/
def leafOffsetsGo : Nat → List StaticProp → List Nat
  | _, [] => []
  | acc, p :: ps => acc :: leafOffsetsGo (acc + p.visleafs.length) ps

/-- The deduplicated model-name table (`models = set()` then
`list(models)`; the Python set's iteration order is unspecified, modelled
by `List.dedup`). -/
def dedupModels (props : List StaticProp) : List (List Nat) :=
  (props.map (·.model)).dedup

/-- Pad or truncate one model name to its 128-byte slot
(`struct.pack('<128s', name.encode('ascii'))`). -/
def packPropName (m : List Nat) : Option (List Nat) :=
  if m.all (· < 128) then
    some (m.take 128 ++ List.replicate (128 - m.length) 0)
  else none

/-- The encoder `BSP.write_static_props`: rebuild the leaf array by
concatenating each prop's leaves, collect the deduplicated model table,
then write the three sections. -/
def writeStaticProps (version : Nat) (props : List StaticProp) :
    Option (List Nat) := do
  let models := dedupModels props
  let leafArray := props.flatMap (·.visleafs)
  let d₁ ← packI 4 models.length
  let names ← models.mapM packPropName
  let d₂ ← packI 4 leafArray.length
  let leafBytes ← leafArray.mapM (packU 2)
  let d₃ ← packI 4 props.length
  let recs ← (props.zip (leafOffsetsGo 0 props)).mapM fun q =>
    writeProp version (models.indexOf q.1.model) q.2 q.1
  some (d₁ ++ names.flatten ++ d₂ ++ leafBytes.flatten ++ d₃ ++
    recs.flatten)

/- ## Lemmas about the static-prop codec -/

/-- The byte footprint of one prop record as a function of the format
version alone, summing the base 56 bytes and each version-conditional
field group in the source's order. -/
def propSize (version : Nat) : Nat :=
  56 + (if 5 ≤ version then 4 else 0) +
  (if version = 6 ∨ version = 7 then 4 else 0) +
  (if 8 ≤ version then 4 else 0) + (if 7 ≤ version then 4 else 0) +
  (if 11 ≤ version then 4 else 0) + (if 10 ≤ version then 4 else 0) +
  (if 11 ≤ version then 4 else if 9 ≤ version then 4 else 0)

theorem readN_len {n : Nat} {s b r : List Nat}
    (h : readN n s = some (b, r)) : s.length = n + r.length := by
  obtain ⟨hs, hb⟩ := readN_eq_some h
  simp [hs, hb]

theorem readF3_eq_some : ∀ {s : List Nat} {t : Nat × Nat × Nat}
    {r : List Nat}, readF3 s = some (t, r) → s.length = 12 + r.length := by
  intro s t r h
  unfold readF3 at h
  obtain ⟨⟨a, s₁⟩, h1, h⟩ := Option.bind_eq_some.mp h
  obtain ⟨⟨b, s₂⟩, h2, h⟩ := Option.bind_eq_some.mp h
  obtain ⟨⟨c, s₃⟩, h3, h⟩ := Option.bind_eq_some.mp h
  obtain ⟨-, hr⟩ := Prod.mk.injEq .. ▸ Option.some.injEq .. ▸ h
  subst hr
  have e1 := readU_eq_some h1
  have e2 := readU_eq_some h2
  have e3 := readU_eq_some h3
  omega

theorem readPropBase_eq_some {models : List (List Nat)} {leaves : List Nat}
    {s : List Nat} {b : PropBase} {r : List Nat}
    (h : readPropBase models leaves s = some (b, r)) :
    s.length = 56 + r.length := by
  unfold readPropBase at h
  obtain ⟨⟨og, s₁⟩, h1, h⟩ := Option.bind_eq_some.mp h
  obtain ⟨⟨an, s₂⟩, h2, h⟩ := Option.bind_eq_some.mp h
  obtain ⟨⟨mi, s₃⟩, h3, h⟩ := Option.bind_eq_some.mp h
  obtain ⟨⟨fl, s₄⟩, h4, h⟩ := Option.bind_eq_some.mp h
  obtain ⟨⟨lc, s₅⟩, h5, h⟩ := Option.bind_eq_some.mp h
  obtain ⟨⟨so, s₆⟩, h6, h⟩ := Option.bind_eq_some.mp h
  obtain ⟨⟨fb, s₇⟩, h7, h⟩ := Option.bind_eq_some.mp h
  obtain ⟨⟨sk, s₈⟩, h8, h⟩ := Option.bind_eq_some.mp h
  obtain ⟨⟨mf, s₉⟩, h9, h⟩ := Option.bind_eq_some.mp h
  obtain ⟨⟨xf, s₁₀⟩, h10, h⟩ := Option.bind_eq_some.mp h
  obtain ⟨mn, hmn, h⟩ := Option.bind_eq_some.mp h
  obtain ⟨⟨lg, s₁₁⟩, h11, h⟩ := Option.bind_eq_some.mp h
  obtain ⟨-, hr⟩ := Prod.mk.injEq .. ▸ Option.some.injEq .. ▸ h
  subst hr
  have e1 := readF3_eq_some h1
  have e2 := readF3_eq_some h2
  have e3 := readU_eq_some h3
  have e4 := readU_eq_some h4
  have e5 := readU_eq_some h5
  have e6 := readU_eq_some h6
  have e7 := readU_eq_some h7
  have e8 := readI_eq_some h8
  have e9 := readU_eq_some h9
  have e10 := readU_eq_some h10
  have e11 := readF3_eq_some h11
  omega

theorem readFadeScale_eq_some {version : Nat} {s : List Nat} {x : Nat}
    {r : List Nat} (h : readFadeScale version s = some (x, r)) :
    s.length = (if 5 ≤ version then 4 else 0) + r.length := by
  unfold readFadeScale at h
  split at h
  · rw [if_pos (by assumption)]
    exact readU_eq_some h
  · rw [if_neg (by assumption)]
    obtain ⟨-, hr⟩ := Prod.mk.injEq .. ▸ Option.some.injEq .. ▸ h
    simp [hr]

theorem readDxLevels_eq_some {version : Nat} {s : List Nat}
    {x : Nat × Nat} {r : List Nat}
    (h : readDxLevels version s = some (x, r)) :
    s.length = (if version = 6 ∨ version = 7 then 4 else 0) + r.length := by
  unfold readDxLevels at h
  split at h
  · rw [if_pos (by assumption)]
    obtain ⟨⟨a, t₁⟩, h1, h⟩ := Option.bind_eq_some.mp h
    obtain ⟨⟨b, t₂⟩, h2, h⟩ := Option.bind_eq_some.mp h
    obtain ⟨-, hr⟩ := Prod.mk.injEq .. ▸ Option.some.injEq .. ▸ h
    subst hr
    have e1 := readU_eq_some h1
    have e2 := readU_eq_some h2
    omega
  · rw [if_neg (by assumption)]
    obtain ⟨-, hr⟩ := Prod.mk.injEq .. ▸ Option.some.injEq .. ▸ h
    simp [hr]

theorem readCpuGpu_eq_some {version : Nat} {s : List Nat}
    {x : Nat × Nat × Nat × Nat} {r : List Nat}
    (h : readCpuGpu version s = some (x, r)) :
    s.length = (if 8 ≤ version then 4 else 0) + r.length := by
  unfold readCpuGpu at h
  split at h
  · rw [if_pos (by assumption)]
    obtain ⟨⟨a, t₁⟩, h1, h⟩ := Option.bind_eq_some.mp h
    obtain ⟨⟨b, t₂⟩, h2, h⟩ := Option.bind_eq_some.mp h
    obtain ⟨⟨c, t₃⟩, h3, h⟩ := Option.bind_eq_some.mp h
    obtain ⟨⟨d, t₄⟩, h4, h⟩ := Option.bind_eq_some.mp h
    obtain ⟨-, hr⟩ := Prod.mk.injEq .. ▸ Option.some.injEq .. ▸ h
    subst hr
    have e1 := readU_eq_some h1
    have e2 := readU_eq_some h2
    have e3 := readU_eq_some h3
    have e4 := readU_eq_some h4
    omega
  · rw [if_neg (by assumption)]
    obtain ⟨-, hr⟩ := Prod.mk.injEq .. ▸ Option.some.injEq .. ▸ h
    simp [hr]

theorem readTintFx_eq_some {version : Nat} {s : List Nat}
    {x : (Nat × Nat × Nat) × Nat} {r : List Nat}
    (h : readTintFx version s = some (x, r)) :
    s.length = (if 7 ≤ version then 4 else 0) + r.length := by
  unfold readTintFx at h
  split at h
  · rw [if_pos (by assumption)]
    obtain ⟨⟨a, t₁⟩, h1, h⟩ := Option.bind_eq_some.mp h
    obtain ⟨⟨b, t₂⟩, h2, h⟩ := Option.bind_eq_some.mp h
    obtain ⟨⟨c, t₃⟩, h3, h⟩ := Option.bind_eq_some.mp h
    obtain ⟨⟨d, t₄⟩, h4, h⟩ := Option.bind_eq_some.mp h
    obtain ⟨-, hr⟩ := Prod.mk.injEq .. ▸ Option.some.injEq .. ▸ h
    subst hr
    have e1 := readU_eq_some h1
    have e2 := readU_eq_some h2
    have e3 := readU_eq_some h3
    have e4 := readU_eq_some h4
    omega
  · rw [if_neg (by assumption)]
    obtain ⟨-, hr⟩ := Prod.mk.injEq .. ▸ Option.some.injEq .. ▸ h
    simp [hr]

theorem readUnknownV11_eq_some {version : Nat} {s : List Nat} {x : Unit}
    {r : List Nat} (h : readUnknownV11 version s = some (x, r)) :
    s.length = (if 11 ≤ version then 4 else 0) + r.length := by
  unfold readUnknownV11 at h
  split at h
  · rw [if_pos (by assumption)]
    obtain ⟨⟨i, t⟩, h1, h⟩ := Option.map_eq_some'.mp h
    obtain ⟨-, hr⟩ := Prod.mk.injEq .. ▸ h.symm
    subst hr
    exact readI_eq_some h1
  · rw [if_neg (by assumption)]
    obtain ⟨-, hr⟩ := Prod.mk.injEq .. ▸ Option.some.injEq .. ▸ h
    simp [hr]

theorem readFlagsRest_eq_some {version flagsByte : Nat} {s : List Nat}
    {x : Nat} {r : List Nat}
    (h : readFlagsRest version flagsByte s = some (x, r)) :
    s.length = (if 10 ≤ version then 4 else 0) + r.length := by
  unfold readFlagsRest at h
  split at h
  · rw [if_pos (by assumption)]
    obtain ⟨⟨v, t⟩, h1, h⟩ := Option.map_eq_some'.mp h
    obtain ⟨-, hr⟩ := Prod.mk.injEq .. ▸ h.symm
    subst hr
    exact readU_eq_some h1
  · rw [if_neg (by assumption)]
    obtain ⟨-, hr⟩ := Prod.mk.injEq .. ▸ Option.some.injEq .. ▸ h
    simp [hr]

theorem readScaleXbox_eq_some {version : Nat} {s : List Nat}
    {x : Nat × Bool} {r : List Nat}
    (h : readScaleXbox version s = some (x, r)) :
    s.length =
      (if 11 ≤ version then 4 else if 9 ≤ version then 4 else 0) +
      r.length := by
  unfold readScaleXbox at h
  split at h
  · rw [if_pos (by assumption)]
    obtain ⟨⟨v, t⟩, h1, h⟩ := Option.map_eq_some'.mp h
    obtain ⟨-, hr⟩ := Prod.mk.injEq .. ▸ h.symm
    subst hr
    exact readU_eq_some h1
  · rw [if_neg (by assumption)]
    split at h
    · rw [if_pos (by assumption)]
      obtain ⟨⟨b, t₁⟩, h1, h⟩ := Option.bind_eq_some.mp h
      obtain ⟨⟨pd, t₂⟩, h2, h⟩ := Option.bind_eq_some.mp h
      obtain ⟨-, hr⟩ := Prod.mk.injEq .. ▸ Option.some.injEq .. ▸ h
      subst hr
      have e1 := readU_eq_some h1
      have e2 := readN_len h2
      omega
    · rw [if_neg (by assumption)]
      obtain ⟨-, hr⟩ := Prod.mk.injEq .. ▸ Option.some.injEq .. ▸ h
      simp [hr]

theorem readProp_length {version : Nat} {models : List (List Nat)}
    {leaves : List Nat} {s : List Nat} {p : StaticProp} {r : List Nat}
    (h : readProp version models leaves s = some (p, r)) :
    s.length = propSize version + r.length := by
  unfold readProp at h
  obtain ⟨⟨base, s₁⟩, h1, h⟩ := Option.bind_eq_some.mp h
  obtain ⟨⟨fs, s₂⟩, h2, h⟩ := Option.bind_eq_some.mp h
  obtain ⟨⟨dx, s₃⟩, h3, h⟩ := Option.bind_eq_some.mp h
  obtain ⟨⟨cg, s₄⟩, h4, h⟩ := Option.bind_eq_some.mp h
  obtain ⟨⟨tf, s₅⟩, h5, h⟩ := Option.bind_eq_some.mp h
  obtain ⟨⟨u, s₆⟩, h6, h⟩ := Option.bind_eq_some.mp h
  obtain ⟨⟨flg, s₇⟩, h7, h⟩ := Option.bind_eq_some.mp h
  split at h
  rename_i x ind data heq
  injection heq with e1 e2
  subst e1
  subst e2
  split at h
  · obtain ⟨⟨sx, s₈⟩, h8, h⟩ := Option.bind_eq_some.mp h
    obtain ⟨-, hr⟩ := Prod.mk.injEq .. ▸ Option.some.injEq .. ▸ h
    subst hr
    have e1 := readPropBase_eq_some h1
    have e2 := readFadeScale_eq_some h2
    have e3 := readDxLevels_eq_some h3
    have e4 := readCpuGpu_eq_some h4
    have e5 := readTintFx_eq_some h5
    have e6 := readUnknownV11_eq_some h6
    have e7 := readFlagsRest_eq_some h7
    have e8 := readScaleXbox_eq_some h8
    unfold propSize
    omega
  · exact absurd h (by simp)

/-- C3: the static-prop decoder hard-fails for every declared version
below 4 or above 11, and within 4-11 the set of optional fields read is a
pure function of the declared version: a successfully read prop record
always consumes exactly `propSize version` bytes. -/
theorem static_props_version_gate :
    (∀ (version : Nat) (data : List Nat), version < 4 ∨ 11 < version →
      staticPropsDecode version data = none) ∧
    (∀ (version : Nat), 4 ≤ version → version ≤ 11 →
      ∀ (models : List (List Nat)) (leaves : List Nat) (s : List Nat)
        (p : StaticProp) (r : List Nat),
        readProp version models leaves s = some (p, r) →
        s.length = propSize version + r.length) := by
  constructor
  · intro version data hv
    unfold staticPropsDecode
    rcases hv with h | h
    · rw [if_neg (by omega), if_pos h]
    · rw [if_pos h]
  · intro version _ _ models leaves s p r h
    exact readProp_length h

/-- The prop a 56-byte all-zero version-4 record decodes to (model index
0, no leaves, every version-inapplicable field at its decode default). -/
def spZero : StaticProp :=
  ⟨[109], (0, 0, 0), (0, 0, 0), F32_ONE, [], 0, 0, 0, 0, 0, (0, 0, 0),
    F32_ONE, 0, 0, 0, 0, 0, 0, (255, 255, 255), 255, false⟩

/-- Witness for C3: versions 12 and 3 are rejected outright, and a
concrete version-4 record consumes exactly `propSize 4 = 56` bytes. -/
theorem static_props_version_gate_witness :
    staticPropsDecode 12 [0, 0, 0, 0] = none ∧
    staticPropsDecode 3 [0, 0, 0, 0] = none ∧
    (List.replicate 56 0).length = propSize 4 + ([] : List Nat).length :=
  ⟨static_props_version_gate.1 12 [0, 0, 0, 0] (Or.inr (by norm_num)),
    static_props_version_gate.1 3 [0, 0, 0, 0] (Or.inl (by norm_num)),
    static_props_version_gate.2 4 (by norm_num) (by norm_num) [[109]] []
      (List.replicate 56 0) spZero [] (by decide)⟩

/-- A static prop carrying the secondary flag bit `NO_FLASHLIGHT`
(flags 0x100, so the primary flag byte is 0 and the secondary dword 1);
`scaling` sits at the decode default so only the flag field is at stake. -/
def spSec : StaticProp :=
  ⟨[109], (0, 0, 0), (0, 0, 0), F32_ONE, [], 6, 256, 0, 0, 0, (0, 0, 0),
    0, 0, 0, 0, 0, 0, 0, (255, 255, 255), 255, false⟩

set_option maxRecDepth 20000 in
/-- C1: at version 10 encode-then-decode reproduces the prop exactly,
secondary flags included, but at version 11 the same prop comes back with
its secondary flag bits zeroed: encode writes the secondary-flag dword
before the four pad bytes of `<xxxxf`, while decode reads the discarded
unknown dword first and then takes the pad bytes as the secondary flags —
the conditional field order of encode and decode disagrees at version
11. -/
theorem static_props_v11_flag_loss :
    ((writeStaticProps 10 [spSec]).bind (staticPropsDecode 10) =
      some [spSec]) ∧
    ((writeStaticProps 11 [spSec]).bind (staticPropsDecode 11) =
      some [{ spSec with flags := 0 }]) ∧
    spSec.flags = 256 := by
  refine ⟨by decide, by decide, by decide⟩

end Srctools
